import Mathlib

/-!
# Verification of the 9router streaming translation engine

Shallow embedding of the bidirectional streaming protocol translation core of
the 9router proxy, together with proofs of the specification's claims about it.

Embedded components (each definition mirrors the named function of the source):
* the OpenAI→Claude streaming response chunk translator (`openaiToClaudeResponse`);
* the Claude→OpenAI streaming response chunk translator (`claudeToOpenAIResponse`);
* the Claude→OpenAI request translator's message assembly, including
  `fixMissingToolResponses`;
* the JSON-Schema cleaning pass for Antigravity (`cleanJSONSchemaForAntigravity`);
* the OpenAI→Kiro request conversion (`convertMessages`);
* the SSE framer/parser and the translate-mode stream orchestrator
  (`parseSSELine`, `createSSEStream`).

JavaScript conventions are embedded explicitly: `undefined`/missing fields
become `Option`, string truthiness checks become emptiness checks, `Date.now()`
becomes an explicit `now : Nat` argument, and JavaScript `Map`s become ordered
association lists with insert-in-place semantics.
-/

namespace NineRouter

/-- JavaScript string truthiness on an optional field: `undefined` and `""` are
falsy; returns the value only when truthy. -/
def truthyS (o : Option String) : Option String :=
  match o with
  | some s => if s = "" then none else some s
  | none => none

/-- JavaScript `a || b` over two optional strings (first truthy value). -/
def firstTruthyS (a b : Option String) : Option String :=
  match truthyS a with
  | some s => some s
  | none => truthyS b

/-- JavaScript's `String.prototype.trim` whitespace class (the characters
relevant to this development). -/
def jsWhitespaceChar (c : Char) : Bool :=
  c = ' ' || c = '\t' || c = '\n' || c = '\r' ||
    c.val == 11 || c.val == 12 || c.val == 160 || c.val == 65279

/-- `s.trim()` (computable at the character level). -/
def jsTrim (s : String) : String :=
  String.mk (((s.toList.dropWhile jsWhitespaceChar).reverse.dropWhile
    jsWhitespaceChar).reverse)

/-- `results.length > 0 ? results : null` — the return convention of the
response translators. -/
def optList {α : Type} (l : List α) : Option (List α) :=
  if l.isEmpty then none else some l

/-- `s.replace(pat, "")`: remove the first occurrence of `pat` in `s`
(JavaScript `String.prototype.replace` with a string pattern replaces only the
first occurrence). -/
def replaceOnce (s pat : String) : String :=
  match s.splitOn pat with
  | [] => s
  | [_] => s
  | p :: rest => p ++ String.intercalate pat rest

/-! ## OpenAI → Claude streaming response translator (`openaiToClaudeResponse`) -/

/-- One entry of an OpenAI streaming `delta.tool_calls` array. `fname`/`fargs`
model `tc.function?.name` / `tc.function?.arguments`. -/
structure OAToolCallDelta where
  index : Option Nat
  id : Option String
  fname : Option String
  fargs : Option String
  deriving Repr, DecidableEq

/-- The `delta` object of an OpenAI streaming choice. -/
structure OADelta where
  content : Option String
  reasoning_content : Option String
  reasoning : Option String
  tool_calls : Option (List OAToolCallDelta)
  deriving Repr, DecidableEq

/-- One element of an OpenAI chunk's `choices` array. -/
structure OAChoice where
  delta : Option OADelta
  finish_reason : Option String
  deriving Repr, DecidableEq

/-- The `extend_fields` object some providers attach to OpenAI chunks. -/
structure OAExtend where
  requestId : Option String
  traceId : Option String
  deriving Repr, DecidableEq

/-- An OpenAI-format `usage` object (fields used by `extractUsage`). -/
structure OAUsage where
  prompt_tokens : Option Int
  completion_tokens : Option Int
  cached_tokens : Option Int
  reasoning_tokens : Option Int
  deriving Repr, DecidableEq

/-- A parsed OpenAI streaming chunk (the fields read by the translator and by
`extractUsage`). A missing `choices` field and a present-but-empty array are
distinguished, as in the JSON. -/
structure OAChunk where
  id : Option String
  model : Option String
  choices : Option (List OAChoice)
  extend_fields : Option OAExtend
  usage : Option OAUsage
  deriving Repr, DecidableEq

/-- Per-tool-call record stored in `state.toolCalls`. -/
structure ToolInfo where
  id : String
  name : String
  blockIndex : Nat
  deriving Repr, DecidableEq

/-- The canonical usage record extracted by the orchestrator (`extractUsage`). -/
structure UsageRec where
  prompt_tokens : Int
  completion_tokens : Int
  cached_tokens : Option Int
  reasoning_tokens : Option Int
  deriving Repr, DecidableEq

/-- The per-stream mutable `StreamingState` of the OpenAI→Claude translator.
Field defaults model JavaScript `undefined` falsiness. -/
structure OCState where
  messageStartSent : Bool := false
  messageId : String := ""
  model : String := ""
  nextBlockIndex : Nat := 0
  thinkingBlockStarted : Bool := false
  thinkingBlockIndex : Nat := 0
  textBlockStarted : Bool := false
  textBlockClosed : Bool := false
  textBlockIndex : Nat := 0
  toolCalls : List (Nat × ToolInfo) := []
  usage : Option UsageRec := none
  deriving Repr, DecidableEq

/-- Modelled from the spec: the fresh `StreamingState` produced by
`initState` for a new stream (that initializer lives in the translator index
module, outside the sources at hand): identity fields unset, no block open,
empty tool-call map, no usage — i.e. every field at its JavaScript-falsy
default. -/
def freshOCState : OCState := {}

/-- JavaScript `Map.prototype.set`: update in place if the key exists,
otherwise append (insertion order preserved). -/
def mapSet (m : List (Nat × ToolInfo)) (k : Nat) (v : ToolInfo) :
    List (Nat × ToolInfo) :=
  match m with
  | [] => [(k, v)]
  | (k', v') :: rest => if k' = k then (k, v) :: rest else (k', v') :: mapSet rest k v

/-- JavaScript `Map.prototype.get` (as an `Option`). -/
def mapGet (m : List (Nat × ToolInfo)) (k : Nat) : Option ToolInfo :=
  match m with
  | [] => none
  | (k', v') :: rest => if k' = k then some v' else mapGet rest k

/-- The content-block payload of a Claude `content_block_start` event. -/
inductive CBlock where
  | text
  | thinking
  | tool_use (id name : String)
  deriving Repr, DecidableEq

/-- The delta payload of a Claude `content_block_delta` event. -/
inductive CDelta where
  | text_delta (s : String)
  | thinking_delta (s : String)
  | input_json_delta (s : String)
  deriving Repr, DecidableEq

/-- A Claude-format streaming event as emitted by the translator. Constant
sub-fields of the source's event objects (role, empty initial content, zeroed
usage) are folded into the constructors. -/
inductive ClaudeEvent where
  | message_start (id model : String)
  | content_block_start (index : Nat) (block : CBlock)
  | content_block_delta (index : Nat) (delta : CDelta)
  | content_block_stop (index : Nat)
  | message_delta (stop_reason : String)
  | message_stop
  deriving Repr, DecidableEq

/-- `stopThinkingBlock(state, results)` of the source: close the thinking block
if it is open. -/
def stopThinkingBlock (st : OCState) : OCState × List ClaudeEvent :=
  if st.thinkingBlockStarted then
    ({ st with thinkingBlockStarted := false },
     [ClaudeEvent.content_block_stop st.thinkingBlockIndex])
  else (st, [])

/-- `stopTextBlock(state, results)` of the source: close the text block if it
is open and not already closed. -/
def stopTextBlock (st : OCState) : OCState × List ClaudeEvent :=
  if !st.textBlockStarted || st.textBlockClosed then (st, [])
  else
    ({ st with textBlockClosed := true, textBlockStarted := false },
     [ClaudeEvent.content_block_stop st.textBlockIndex])

/-- Prefix stripped from tool names when translating responses for Claude
OAuth clients. -/
def CLAUDE_OAUTH_TOOL_PREFIX : String := "proxy_"

/-- Strip `CLAUDE_OAUTH_TOOL_PREFIX` from a tool name if present. -/
def stripToolPrefix (n : String) : String :=
  if n.startsWith CLAUDE_OAUTH_TOOL_PREFIX then
    n.drop CLAUDE_OAUTH_TOOL_PREFIX.length
  else n

/-- `convertFinishReason` of the source: OpenAI `finish_reason` → Claude
`stop_reason`. -/
def convertFinishReason (reason : String) : String :=
  match reason with
  | "stop" => "end_turn"
  | "length" => "max_tokens"
  | "tool_calls" => "tool_use"
  | _ => "end_turn"

/-- The message-id computation of the translator's first-chunk branch:
`chunk.id?.replace("chatcmpl-","") || msg_<now>`, re-checked against the
`"chat"` / short-id fallback to `extend_fields`. `now` stands for
`Date.now()` (both uses within one call see the same clock value). -/
def mkMessageId (c : OAChunk) (now : Nat) : String :=
  let m0 := match c.id with
    | some s =>
        let r := replaceOnce s "chatcmpl-"
        if r = "" then "msg_" ++ toString now else r
    | none => "msg_" ++ toString now
  if m0 = "" ∨ m0 = "chat" ∨ m0.length < 8 then
    match truthyS (c.extend_fields.bind (·.requestId)) with
    | some r => r
    | none =>
      match truthyS (c.extend_fields.bind (·.traceId)) with
      | some t => t
      | none => "msg_" ++ toString now
  else m0

/-- The first-chunk branch of `openaiToClaudeResponse` (lines guarded by
`!state.messageStartSent`): record identity fields and emit `message_start`. -/
def ocStartSection (c : OAChunk) (now : Nat) (st : OCState) :
    OCState × List ClaudeEvent :=
  if st.messageStartSent then (st, [])
  else
    let mid := mkMessageId c now
    let mdl := c.model.getD "unknown"
    ({ st with
        messageStartSent := true
        messageId := mid
        model := mdl
        nextBlockIndex := 0 },
     [ClaudeEvent.message_start mid mdl])

/-- The `reasoning_content` branch of `openaiToClaudeResponse`. -/
def ocReasonSection (delta : Option OADelta) (st : OCState) :
    OCState × List ClaudeEvent :=
  match firstTruthyS (delta.bind (·.reasoning_content)) (delta.bind (·.reasoning)) with
  | none => (st, [])
  | some rc =>
    let (st, eStop) := stopTextBlock st
    let (st, eOpen) :=
      if st.thinkingBlockStarted then (st, ([] : List ClaudeEvent))
      else
        let idx := st.nextBlockIndex
        ({ st with
            thinkingBlockIndex := idx
            nextBlockIndex := idx + 1
            thinkingBlockStarted := true },
         [ClaudeEvent.content_block_start idx .thinking])
    (st, eStop ++ eOpen ++
      [ClaudeEvent.content_block_delta st.thinkingBlockIndex (.thinking_delta rc)])

/-- The regular-content branch of `openaiToClaudeResponse`. -/
def ocContentSection (delta : Option OADelta) (st : OCState) :
    OCState × List ClaudeEvent :=
  match truthyS (delta.bind (·.content)) with
  | none => (st, [])
  | some txt =>
    let (st, eStop) := stopThinkingBlock st
    let (st, eOpen) :=
      if st.textBlockStarted then (st, ([] : List ClaudeEvent))
      else
        let idx := st.nextBlockIndex
        ({ st with
            textBlockIndex := idx
            nextBlockIndex := idx + 1
            textBlockStarted := true
            textBlockClosed := false },
         [ClaudeEvent.content_block_start idx .text])
    (st, eStop ++ eOpen ++
      [ClaudeEvent.content_block_delta st.textBlockIndex (.text_delta txt)])

/-- One iteration of the `delta.tool_calls` loop of `openaiToClaudeResponse`. -/
def oaToolCallStep (acc : OCState × List ClaudeEvent) (tc : OAToolCallDelta) :
    OCState × List ClaudeEvent :=
  let st := acc.1
  let evs := acc.2
  let idx := tc.index.getD 0
  let (st, evOpen) :=
    match truthyS tc.id with
    | none => (st, ([] : List ClaudeEvent))
    | some tid =>
      let (st, e1) := stopThinkingBlock st
      let (st, e2) := stopTextBlock st
      let bIdx := st.nextBlockIndex
      let storedName := tc.fname.getD ""
      let st := { st with
        nextBlockIndex := bIdx + 1
        toolCalls := mapSet st.toolCalls idx ⟨tid, storedName, bIdx⟩ }
      (st, e1 ++ e2 ++
        [ClaudeEvent.content_block_start bIdx (.tool_use tid (stripToolPrefix storedName))])
  let evArgs :=
    match truthyS tc.fargs with
    | some args =>
      match mapGet st.toolCalls idx with
      | some info => [ClaudeEvent.content_block_delta info.blockIndex (.input_json_delta args)]
      | none => []
    | none => []
  (st, evs ++ evOpen ++ evArgs)

/-- The `delta.tool_calls` loop of `openaiToClaudeResponse`. -/
def ocToolSection (delta : Option OADelta) (st : OCState) :
    OCState × List ClaudeEvent :=
  match delta.bind (·.tool_calls) with
  | none => (st, [])
  | some tcs => tcs.foldl oaToolCallStep (st, [])

/-- The `finish_reason` branch of `openaiToClaudeResponse`: close all open
blocks and emit the terminal `message_delta` + `message_stop` pair. -/
def ocFinishSection (choice : OAChoice) (st : OCState) :
    OCState × List ClaudeEvent :=
  match truthyS choice.finish_reason with
  | none => (st, [])
  | some fr =>
    let (st, e1) := stopThinkingBlock st
    let (st, e2) := stopTextBlock st
    let eTools := st.toolCalls.map
      (fun p => ClaudeEvent.content_block_stop p.2.blockIndex)
    (st, e1 ++ e2 ++ eTools ++
      [ClaudeEvent.message_delta (convertFinishReason fr), ClaudeEvent.message_stop])

/-- The body of `openaiToClaudeResponse` once the first choice has been
extracted: the five sections in source order, and the
`results.length > 0 ? results : null` return. -/
def ocProcessChoice (c : OAChunk) (choice : OAChoice) (st : OCState) (now : Nat) :
    Option (List ClaudeEvent) × OCState :=
  let delta := choice.delta
  let (st1, evStart) := ocStartSection c now st
  let (st2, evReason) := ocReasonSection delta st1
  let (st3, evContent) := ocContentSection delta st2
  let (st4, evTools) := ocToolSection delta st3
  let (st5, evFinish) := ocFinishSection choice st4
  let evs := evStart ++ evReason ++ evContent ++ evTools ++ evFinish
  (optList evs, st5)

/-- `openaiToClaudeResponse(chunk, state)` of the source: translate one OpenAI
streaming chunk into Claude events. Returns the emitted events (`none` when
the source returns `null`) together with the updated state. `now` models
`Date.now()`. -/
def openaiToClaudeResponse (chunk : Option OAChunk) (st : OCState) (now : Nat) :
    Option (List ClaudeEvent) × OCState :=
  match chunk with
  | none => (none, st)
  | some c =>
    match (c.choices.getD []).head? with
    | none => (none, st)
    | some choice => ocProcessChoice c choice st now

/-! ## Claude → OpenAI streaming response translator (`claudeToOpenAIResponse`) -/

/-- The `message` payload of a Claude `message_start` chunk. -/
structure CMsgIn where
  id : Option String
  model : Option String
  deriving Repr, DecidableEq

/-- The `content_block` payload of a Claude `content_block_start` chunk. -/
structure CBlockIn where
  type : String
  id : Option String
  name : Option String
  deriving Repr, DecidableEq

/-- The `delta` payload of Claude `content_block_delta` / `message_delta`
chunks. -/
structure CDeltaIn where
  type : Option String
  text : Option String
  thinking : Option String
  partial_json : Option String
  stop_reason : Option String
  deriving Repr, DecidableEq

/-- A usage-shaped object read dynamically by the translator
(`state.usage.input_tokens` etc.). -/
structure JUsage where
  input_tokens : Option Int
  output_tokens : Option Int
  deriving Repr, DecidableEq

/-- A parsed Claude streaming chunk (the fields the translator reads). -/
structure ClaudeChunk where
  type : String
  message : Option CMsgIn
  index : Option Nat
  content_block : Option CBlockIn
  delta : Option CDeltaIn
  deriving Repr, DecidableEq

/-- An accumulated tool-call object stored in `state.toolCalls` by the
Claude→OpenAI translator. -/
structure COToolCall where
  index : Nat
  id : Option String
  name : String
  arguments : String
  deriving Repr, DecidableEq

/-- The per-stream state of the Claude→OpenAI response translator. Field
defaults model JavaScript `undefined` falsiness; `toolNameMap` is the
prefixed-name → original-name map built at request time. -/
structure COState where
  messageId : String := ""
  model : Option String := none
  toolCallIndex : Nat := 0
  textBlockStarted : Bool := false
  inThinkingBlock : Bool := false
  currentBlockIndex : Option Nat := none
  thinkingBlockStarted : Bool := false
  toolCalls : List (Nat × COToolCall) := []
  toolNameMap : List (String × String) := []
  finishReason : Option String := none
  finishReasonSent : Bool := false
  usage : Option JUsage := none
  deriving Repr, DecidableEq

/-- JavaScript `Map.prototype.set` on the Claude→OpenAI tool-call map. -/
def coMapSet (m : List (Nat × COToolCall)) (k : Nat) (v : COToolCall) :
    List (Nat × COToolCall) :=
  match m with
  | [] => [(k, v)]
  | (k', v') :: rest => if k' = k then (k, v) :: rest else (k', v') :: coMapSet rest k v

/-- JavaScript `Map.prototype.get` on the Claude→OpenAI tool-call map. -/
def coMapGet (m : List (Nat × COToolCall)) (k : Nat) : Option COToolCall :=
  match m with
  | [] => none
  | (k', v') :: rest => if k' = k then some v' else coMapGet rest k

/-- Lookup in the request-time tool-name map (`state.toolNameMap.get(name)`). -/
def nameMapGet (m : List (String × String)) (k : String) : Option String :=
  match m with
  | [] => none
  | (k', v') :: rest => if k' = k then some v' else nameMapGet rest k

/-- A `tool_calls` entry of an emitted OpenAI chunk. -/
structure OAOutToolCall where
  index : Nat
  id : Option String
  name : Option String
  arguments : Option String
  deriving Repr, DecidableEq

/-- The `delta` object of an emitted OpenAI chunk. -/
inductive OAOutDelta where
  | roleAssistant
  | content (s : String)
  | toolCalls (l : List OAOutToolCall)
  | empty
  deriving Repr, DecidableEq

/-- An OpenAI `chat.completion.chunk` emitted by the Claude→OpenAI translator.
`created` carries the `Date.now()` timestamp (seconds). -/
structure OAOutChunk where
  id : String
  created : Nat
  model : Option String
  delta : OAOutDelta
  finish_reason : Option String
  usage : Option (Int × Int × Int)
  deriving Repr, DecidableEq

/-- `createChunk(state, delta, finishReason)` of the source. -/
def createChunk (st : COState) (now : Nat) (delta : OAOutDelta)
    (finishReason : Option String := none) : OAOutChunk :=
  { id := "chatcmpl-" ++ st.messageId
    created := now
    model := st.model
    delta := delta
    finish_reason := finishReason
    usage := none }

/-- `convertStopReason` of the source: Claude `stop_reason` → OpenAI
`finish_reason`. -/
def convertStopReason (reason : String) : String :=
  match reason with
  | "end_turn" => "stop"
  | "max_tokens" => "length"
  | "tool_use" => "tool_calls"
  | "stop_sequence" => "stop"
  | _ => "stop"

/-- `claudeToOpenAIResponse(chunk, state)` of the source: translate one Claude
streaming event into OpenAI chunks. Returns the emitted chunks (`none` when
the source returns `null`) together with the updated state; `now` models
`Date.now()`. -/
def claudeToOpenAIResponse (chunk : Option ClaudeChunk) (st : COState) (now : Nat) :
    Option (List OAOutChunk) × COState :=
  match chunk with
  | none => (none, st)
  | some c =>
    match c.type with
    | "message_start" =>
      let mid := match truthyS (c.message.bind (·.id)) with
        | some i => i
        | none => "msg_" ++ toString now
      let st := { st with
        messageId := mid
        model := c.message.bind (·.model)
        toolCallIndex := 0 }
      (some [createChunk st now .roleAssistant], st)
    | "content_block_start" =>
      match c.content_block with
      | none => (none, st)
      | some block =>
        if block.type = "text" then
          (none, { st with textBlockStarted := true })
        else if block.type = "thinking" then
          let st := { st with inThinkingBlock := true, currentBlockIndex := c.index }
          (some [createChunk st now (.content "<think>")], st)
        else if block.type = "tool_use" then
          let tcIdx := st.toolCallIndex
          let bname := block.name.getD ""
          let toolName := (nameMapGet st.toolNameMap bname).getD bname
          let toolCall : COToolCall :=
            { index := tcIdx, id := block.id, name := toolName, arguments := "" }
          let st := { st with
            toolCallIndex := tcIdx + 1
            toolCalls := coMapSet st.toolCalls (c.index.getD 0) toolCall }
          (some [createChunk st now (.toolCalls
            [{ index := tcIdx, id := block.id, name := some toolName, arguments := some "" }])], st)
        else (none, st)
    | "content_block_delta" =>
      let d := c.delta
      if (d.bind (·.type)) = some "text_delta" ∧ (truthyS (d.bind (·.text))).isSome then
        (some [createChunk st now (.content ((d.bind (·.text)).getD ""))], st)
      else if (d.bind (·.type)) = some "thinking_delta" ∧
          (truthyS (d.bind (·.thinking))).isSome then
        (some [createChunk st now (.content ((d.bind (·.thinking)).getD ""))], st)
      else if (d.bind (·.type)) = some "input_json_delta" ∧
          (truthyS (d.bind (·.partial_json))).isSome then
        match coMapGet st.toolCalls (c.index.getD 0) with
        | none => (none, st)
        | some tc =>
          let pj := (d.bind (·.partial_json)).getD ""
          let tc' := { tc with arguments := tc.arguments ++ pj }
          let st := { st with toolCalls := coMapSet st.toolCalls (c.index.getD 0) tc' }
          (some [createChunk st now (.toolCalls
            [{ index := tc.index, id := tc.id, name := none, arguments := some pj }])], st)
      else (none, st)
    | "content_block_stop" =>
      let (evs, st) :=
        if st.inThinkingBlock ∧ c.index = st.currentBlockIndex then
          ([createChunk st now (.content "</think>")], { st with inThinkingBlock := false })
        else ([], st)
      let st := { st with textBlockStarted := false, thinkingBlockStarted := false }
      (optList evs, st)
    | "message_delta" =>
      match truthyS (c.delta.bind (·.stop_reason)) with
      | none => (none, st)
      | some sr =>
        let fr := convertStopReason sr
        let st := { st with finishReason := some fr }
        let ev : OAOutChunk :=
          { id := "chatcmpl-" ++ st.messageId, created := now, model := st.model
            delta := .empty, finish_reason := some fr, usage := none }
        (some [ev], { st with finishReasonSent := true })
    | "message_stop" =>
      if st.finishReasonSent then (none, st)
      else
        let fr := match st.finishReason with
          | some f => f
          | none => if st.toolCalls.length > 0 then "tool_calls" else "stop"
        let usageObj := st.usage.map (fun u =>
          (u.input_tokens.getD 0, u.output_tokens.getD 0,
           u.input_tokens.getD 0 + u.output_tokens.getD 0))
        let ev : OAOutChunk :=
          { id := "chatcmpl-" ++ st.messageId, created := now, model := st.model
            delta := .empty, finish_reason := some fr, usage := usageObj }
        (some [ev], { st with finishReasonSent := true })
    | _ => (none, st)

/-! ## JSON values

JavaScript objects are modelled as ordered association lists (JavaScript
preserves insertion order); numbers as integers (the schemas and arguments in
play use integral literals). -/

/-- A JSON value. -/
inductive Json where
  | null
  | bool (b : Bool)
  | num (n : Int)
  | str (s : String)
  | arr (elems : List Json)
  | obj (fields : List (String × Json))
  deriving Repr

mutual

def Json.beq : Json → Json → Bool
  | .null, .null => true
  | .bool a, .bool b => a == b
  | .num a, .num b => a == b
  | .str a, .str b => a == b
  | .arr a, .arr b => Json.beqL a b
  | .obj a, .obj b => Json.beqKV a b
  | _, _ => false

def Json.beqL : List Json → List Json → Bool
  | [], [] => true
  | x :: xs, y :: ys => Json.beq x y && Json.beqL xs ys
  | _, _ => false

def Json.beqKV : List (String × Json) → List (String × Json) → Bool
  | [], [] => true
  | (k1, v1) :: xs, (k2, v2) :: ys => k1 == k2 && Json.beq v1 v2 && Json.beqKV xs ys
  | _, _ => false

end

mutual

theorem Json.eq_of_beq : ∀ {a b : Json}, Json.beq a b = true → a = b
  | .null, .null, _ => rfl
  | .bool a, .bool b, h => by simp [Json.beq] at h; rw [h]
  | .num a, .num b, h => by simp [Json.beq] at h; rw [h]
  | .str a, .str b, h => by simp [Json.beq] at h; rw [h]
  | .arr a, .arr b, h => by rw [Json.eqL_of_beqL (a := a) (b := b) h]
  | .obj a, .obj b, h => by rw [Json.eqKV_of_beqKV (a := a) (b := b) h]

theorem Json.eqL_of_beqL : ∀ {a b : List Json}, Json.beqL a b = true → a = b
  | [], [], _ => rfl
  | x :: xs, y :: ys, h => by
    simp only [Json.beqL, Bool.and_eq_true] at h
    rw [Json.eq_of_beq h.1, Json.eqL_of_beqL h.2]

theorem Json.eqKV_of_beqKV : ∀ {a b : List (String × Json)},
    Json.beqKV a b = true → a = b
  | [], [], _ => rfl
  | (k1, v1) :: xs, (k2, v2) :: ys, h => by
    simp only [Json.beqKV, Bool.and_eq_true, beq_iff_eq] at h
    rw [h.1.1, Json.eq_of_beq h.1.2, Json.eqKV_of_beqKV h.2]

end

mutual

theorem Json.beq_self : ∀ a : Json, Json.beq a a = true
  | .null => rfl
  | .bool a => by simp [Json.beq]
  | .num a => by simp [Json.beq]
  | .str a => by simp [Json.beq]
  | .arr a => Json.beqL_self a
  | .obj a => Json.beqKV_self a

theorem Json.beqL_self : ∀ a : List Json, Json.beqL a a = true
  | [] => rfl
  | x :: xs => by
    simp only [Json.beqL, Bool.and_eq_true]
    exact ⟨Json.beq_self x, Json.beqL_self xs⟩

theorem Json.beqKV_self : ∀ a : List (String × Json), Json.beqKV a a = true
  | [] => rfl
  | (k, v) :: xs => by
    simp only [Json.beqKV, Bool.and_eq_true, beq_iff_eq]
    exact ⟨⟨trivial, Json.beq_self v⟩, Json.beqKV_self xs⟩

end

instance : DecidableEq Json := fun a b =>
  if h : Json.beq a b = true then .isTrue (Json.eq_of_beq h)
  else .isFalse (fun he => h (he ▸ Json.beq_self a))

/-- JavaScript truthiness of a JSON value. -/
def jsTruthy : Json → Bool
  | .null => false
  | .bool b => b
  | .num n => n != 0
  | .str s => s != ""
  | .arr _ => true
  | .obj _ => true

/-- Escaping of one character inside a JSON string literal (the escapes
`JSON.stringify` produces for the characters that occur in this development). -/
def jsEscapeChar (c : Char) : String :=
  if c = '"' then "\\\""
  else if c = '\\' then "\\\\"
  else if c = '\n' then "\\n"
  else if c = '\r' then "\\r"
  else if c = '\t' then "\\t"
  else String.singleton c

/-- Escape a string for inclusion in a JSON string literal. -/
def jsEscape (s : String) : String :=
  String.join (s.toList.map jsEscapeChar)

mutual

/-- `JSON.stringify` of a JSON value (no spacing, insertion key order). -/
def jsonStringify : Json → String
  | .null => "null"
  | .bool b => if b then "true" else "false"
  | .num n => toString n
  | .str s => "\"" ++ jsEscape s ++ "\""
  | .arr l => "[" ++ jsonStringifyL l ++ "]"
  | .obj kvs => "\x7b" ++ jsonStringifyKV kvs ++ "\x7d"

def jsonStringifyL : List Json → String
  | [] => ""
  | [x] => jsonStringify x
  | x :: xs => jsonStringify x ++ "," ++ jsonStringifyL xs

def jsonStringifyKV : List (String × Json) → String
  | [] => ""
  | [(k, v)] => "\"" ++ jsEscape k ++ "\":" ++ jsonStringify v
  | (k, v) :: xs =>
    "\"" ++ jsEscape k ++ "\":" ++ jsonStringify v ++ "," ++ jsonStringifyKV xs

end

/-! ## Antigravity JSON-Schema cleaning (`cleanJSONSchemaForAntigravity`)

The recursive cleaning helpers of the Gemini/Antigravity translator, over the
`Json` model above. -/

/-- `obj[key]` on an ordered association list: the first binding wins. -/
def jsGet : List (String × Json) → String → Option Json
  | [], _ => none
  | (k, v) :: rest, key => if k = key then some v else jsGet rest key

/-- `obj[key] = v`: overwrite in place, or append a new binding. -/
def jsSet : List (String × Json) → String → Json → List (String × Json)
  | [], key, v => [(key, v)]
  | (k, w) :: rest, key, v =>
    if k = key then (k, v) :: rest else (k, w) :: jsSet rest key v

/-- `delete obj[key]`. -/
def jsDelete (kvs : List (String × Json)) (key : String) : List (String × Json) :=
  kvs.filter (fun p => p.1 != key)

/-- `v.key`: property access on an arbitrary value (`undefined`, modelled as
`none`, on primitives; the names the cleaning code reads are never array or
string index properties, so those resolve to `undefined` as well). -/
def jsGetF (v : Json) (key : String) : Option Json :=
  match v with
  | .obj kvs => jsGet kvs key
  | _ => none

/-- Truthiness of a possibly absent value (`undefined` is falsy). -/
def jsTruthyOpt (o : Option Json) : Bool :=
  o.elim false jsTruthy

/-- `v === lit` for a string literal `lit`, on a possibly absent value. -/
def jsIsStr (o : Option Json) (lit : String) : Bool :=
  match o with
  | some (.str t) => t == lit
  | _ => false

/-- Own enumerable string-keyed entries, as enumerated by `Object.assign` and
object spread: objects yield their fields, arrays their indexed elements,
strings their indexed characters; primitives yield none. -/
def jsOwnEntries : Json → List (String × Json)
  | .obj kvs => kvs
  | .arr l => l.enum.map (fun p => (toString p.1, p.2))
  | .str s => s.toList.enum.map (fun p => (toString p.1, Json.str (String.singleton p.2)))
  | _ => []

/-- Own entries of a possibly absent value (`{...undefined}` spreads nothing). -/
def jsOwnEntriesOpt : Option Json → List (String × Json)
  | some v => jsOwnEntries v
  | none => []

/-- Build an object from entries in order, later entries overwriting earlier
ones in place (the semantics of `{...a, ...b}`). -/
def jsObjOf (entries : List (String × Json)) : List (String × Json) :=
  entries.foldl (fun acc p => jsSet acc p.1 p.2) []

/-- `Object.assign(target, src)` over the association-list model. -/
def jsAssign (target : List (String × Json)) (src : Json) : List (String × Json) :=
  (jsOwnEntries src).foldl (fun acc p => jsSet acc p.1 p.2) target

mutual

/-- `String(v)`: JavaScript string coercion (arrays join their elements with
commas, `null` elements joining as the empty string). -/
def jsToString : Json → String
  | .null => "null"
  | .bool b => if b then "true" else "false"
  | .num n => toString n
  | .str s => s
  | .arr l => jsToStringElems l
  | .obj _ => "[object Object]"

def jsToStringElems : List Json → String
  | [] => ""
  | [.null] => ""
  | [x] => jsToString x
  | .null :: xs => "," ++ jsToStringElems xs
  | x :: xs => jsToString x ++ "," ++ jsToStringElems xs

end

/-- `Object.prototype.hasOwnProperty.call(v, key)`. -/
def jsHasOwn (v : Json) (key : String) : Bool :=
  match v with
  | .obj kvs => (jsGet kvs key).isSome
  | .arr l => key == "length" || (List.range l.length).any (fun i => toString i == key)
  | .str s => key == "length" || (List.range s.length).any (fun i => toString i == key)
  | _ => false

/-- `Object.keys(v).length`. -/
def jsKeysLength : Json → Nat
  | .obj kvs => kvs.length
  | .arr l => l.length
  | .str s => s.length
  | _ => 0

/-- Spread `[...v]` in array position: arrays contribute their elements and
strings their characters, while a falsy `v` (after `v || []`) contributes
nothing. (Spreading a truthy non-iterable throws in JavaScript; it is
modelled as contributing nothing and no theorem exercises that case.) -/
def jsSpreadArr : Option Json → List Json
  | some (.arr l) => l
  | some (.str s) => s.toList.map (fun c => Json.str (String.singleton c))
  | _ => []

/-- The keyword deny list `UNSUPPORTED_SCHEMA_CONSTRAINTS`. -/
def UNSUPPORTED_SCHEMA_CONSTRAINTS : List String := [
  "minLength", "maxLength", "exclusiveMinimum", "exclusiveMaximum",
  "pattern", "minItems", "maxItems", "format",
  "default", "examples",
  "$schema", "$defs", "definitions", "const", "$ref",
  "additionalProperties", "propertyNames", "patternProperties",
  "anyOf", "oneOf", "allOf", "not",
  "dependencies", "dependentSchemas", "dependentRequired",
  "title", "if", "then", "else", "contentMediaType", "contentEncoding",
  "cornerRadius", "fillColor", "fontFamily", "fontSize", "fontWeight",
  "gap", "padding", "strokeColor", "strokeThickness", "textColor"]

/-- Per-node action of `convertConstToEnum`. -/
def convertConstToEnumStep (j : Json) : Json :=
  match j with
  | .obj kvs =>
    match jsGet kvs "const" with
    | some c =>
      if !jsTruthyOpt (jsGet kvs "enum") then
        .obj (jsDelete (jsSet kvs "enum" (.arr [c])) "const")
      else j
    | none => j
  | _ => j

/-- Per-node action of `convertEnumValuesToStrings`. -/
def convertEnumValuesToStringsStep (j : Json) : Json :=
  match j with
  | .obj kvs =>
    match jsGet kvs "enum" with
    | some (.arr l) =>
      .obj (jsSet kvs "enum" (.arr (l.map (fun v => Json.str (jsToString v)))))
    | _ => j
  | _ => j

/-- Per-node action of `mergeAllOf` (`includes` on `required` entries is
modelled as structural equality, which agrees with JavaScript on the
primitive entries `required` lists hold). -/
def mergeAllOfStep (j : Json) : Json :=
  match j with
  | .obj kvs =>
    match jsGet kvs "allOf" with
    | some (.arr items) =>
      let merged := items.foldl
        (fun (acc : Option (List (String × Json)) × Option (List Json)) item =>
          let accP :=
            if jsTruthyOpt (jsGetF item "properties") then
              some (jsAssign (acc.1.getD []) ((jsGetF item "properties").getD .null))
            else acc.1
          let accR :=
            match jsGetF item "required" with
            | some (.arr reqs) =>
              some (reqs.foldl
                (fun cur req => if req ∈ cur then cur else cur ++ [req])
                (acc.2.getD []))
            | _ => acc.2
          (accP, accR))
        (none, none)
      let kvs1 := jsDelete kvs "allOf"
      let kvs2 :=
        match merged.1 with
        | some mp =>
          jsSet kvs1 "properties"
            (.obj (jsObjOf (jsOwnEntriesOpt (jsGet kvs1 "properties") ++ mp)))
        | none => kvs1
      let kvs3 :=
        match merged.2 with
        | some mr =>
          jsSet kvs2 "required" (.arr (jsSpreadArr (jsGet kvs2 "required") ++ mr))
        | none => kvs2
      .obj kvs3
    | _ => j
  | _ => j

/-- `s.type === "null"` (strict). -/
def typeIsNullStr (s : Json) : Bool :=
  jsIsStr (jsGetF s "type") "null"

/-- The score `selectBest` assigns to one alternative. -/
def selectBestScore (item : Json) : Nat :=
  if jsIsStr (jsGetF item "type") "object" || jsTruthyOpt (jsGetF item "properties") then 3
  else if jsIsStr (jsGetF item "type") "array" || jsTruthyOpt (jsGetF item "items") then 2
  else if jsTruthyOpt (jsGetF item "type") && !jsIsStr (jsGetF item "type") "null" then 1
  else 0

def selectBestAux : List Json → Nat → Nat → Int → Nat
  | [], bestIdx, _, _ => bestIdx
  | item :: rest, bestIdx, i, bestScore =>
    if (selectBestScore item : Int) > bestScore then
      selectBestAux rest i (i + 1) (selectBestScore item)
    else
      selectBestAux rest bestIdx (i + 1) bestScore

/-- `selectBest(items)`: index of the best-scoring alternative, first maximum
winning (`score > bestScore` is strict). -/
def selectBest (items : List Json) : Nat :=
  selectBestAux items 0 0 (-1)

/-- Flatten one of `anyOf`/`oneOf` at a node: delete the key and
`Object.assign` the best non-null alternative into the node. -/
def flattenOneKey (key : String) (kvs : List (String × Json)) : List (String × Json) :=
  match jsGet kvs key with
  | some (.arr alts) =>
    if alts.length > 0 then
      let nonNullSchemas := alts.filter (fun s => jsTruthy s && !typeIsNullStr s)
      if nonNullSchemas.length > 0 then
        let selected := (nonNullSchemas[selectBest nonNullSchemas]?).getD .null
        jsAssign (jsDelete kvs key) selected
      else kvs
    else kvs
  | _ => kvs

/-- Per-node action of `flattenAnyOfOneOf`: `anyOf` first, then `oneOf` on
the result. -/
def flattenAnyOfOneOfStep (j : Json) : Json :=
  match j with
  | .obj kvs => .obj (flattenOneKey "oneOf" (flattenOneKey "anyOf" kvs))
  | _ => j

/-- Per-node action of `flattenTypeArrays` (`t !== "null"` is strict, so
non-string entries are kept). -/
def flattenTypeArraysStep (j : Json) : Json :=
  match j with
  | .obj kvs =>
    match jsGet kvs "type" with
    | some (.arr types) =>
      let nonNullTypes := types.filter (fun t => !(match t with | .str u => u == "null" | _ => false))
      .obj (jsSet kvs "type" (nonNullTypes.head?.getD (.str "string")))
    | _ => j
  | _ => j

/-- Per-node action of `removeUnsupportedKeywords` (its array branch deletes
nothing and only recurses). -/
def removeUnsupportedKeywordsStep (j : Json) : Json :=
  match j with
  | .obj kvs => .obj (UNSUPPORTED_SCHEMA_CONSTRAINTS.foldl jsDelete kvs)
  | _ => j

/-- Per-node action of the nested `cleanupRequired`. -/
def cleanupRequiredStep (j : Json) : Json :=
  match j with
  | .obj kvs =>
    match jsGet kvs "required" with
    | some (.arr reqs) =>
      match jsGet kvs "properties" with
      | some props =>
        if jsTruthy props then
          let validRequired := reqs.filter (fun field => jsHasOwn props (jsToString field))
          if validRequired.length = 0 then .obj (jsDelete kvs "required")
          else .obj (jsSet kvs "required" (.arr validRequired))
        else j
      | none => j
    | _ => j
  | _ => j

/-- The `properties` object `addPlaceholders` injects into empty object
schemas. -/
def placeholderProperties : Json :=
  .obj [("reason", .obj [
    ("type", .str "string"),
    ("description", .str "Brief explanation of why you are calling this tool")])]

/-- Per-node action of the nested `addPlaceholders`. -/
def addPlaceholdersStep (j : Json) : Json :=
  match j with
  | .obj kvs =>
    if jsIsStr (jsGet kvs "type") "object" then
      if (match jsGet kvs "properties" with
          | some p => !jsTruthy p || jsKeysLength p == 0
          | none => true) then
        .obj (jsSet (jsSet kvs "properties" placeholderProperties) "required"
          (.arr [.str "reason"]))
      else j
    else j
  | _ => j

/-- Apply a per-node action to a value and then, top-down, to every child of
the result, exactly as each recursive helper of
`cleanJSONSchemaForAntigravity` does (each processes the current node first,
then recurses into `Object.values` of the mutated node; recursion into
primitive children is a no-op there and is harmlessly performed here too).
`fuel` bounds the depth; every use below supplies more than the depth of any
tree the action can produce. -/
def topDownFuel (f : Json → Json) : Nat → Json → Json
  | 0, j => j
  | n + 1, j =>
    match f j with
    | .arr l => .arr (l.map (topDownFuel f n))
    | .obj kvs => .obj (kvs.map (fun p => (p.1, topDownFuel f n p.2)))
    | v => v

mutual

/-- Node count of a value. -/
def Json.size : Json → Nat
  | .arr l => 1 + Json.sizeL l
  | .obj kvs => 1 + Json.sizeKV kvs
  | _ => 1

def Json.sizeL : List Json → Nat
  | [] => 0
  | x :: xs => Json.size x + Json.sizeL xs

def Json.sizeKV : List (String × Json) → Nat
  | [] => 0
  | (_, v) :: xs => Json.size v + Json.sizeKV xs

end

/-- Fuel that strictly dominates the depth of a value, with room for the one
extra wrapper level per node that `convertConstToEnum` can add. -/
def cleanFuel (j : Json) : Nat := 2 * Json.size j + 2

def convertConstToEnum (j : Json) : Json :=
  topDownFuel convertConstToEnumStep (cleanFuel j) j

def convertEnumValuesToStrings (j : Json) : Json :=
  topDownFuel convertEnumValuesToStringsStep (cleanFuel j) j

def mergeAllOf (j : Json) : Json :=
  topDownFuel mergeAllOfStep (cleanFuel j) j

def flattenAnyOfOneOf (j : Json) : Json :=
  topDownFuel flattenAnyOfOneOfStep (cleanFuel j) j

def flattenTypeArrays (j : Json) : Json :=
  topDownFuel flattenTypeArraysStep (cleanFuel j) j

def removeUnsupportedKeywords (j : Json) : Json :=
  topDownFuel removeUnsupportedKeywordsStep (cleanFuel j) j

def cleanupRequired (j : Json) : Json :=
  topDownFuel cleanupRequiredStep (cleanFuel j) j

def addPlaceholders (j : Json) : Json :=
  topDownFuel addPlaceholdersStep (cleanFuel j) j

/-- `true` on the values the guard `!schema || typeof schema !== "object"`
lets through (`null` is `typeof "object"` but falsy). -/
def isObjectLike : Json → Bool
  | .obj _ => true
  | .arr _ => true
  | _ => false

/-- `cleanJSONSchemaForAntigravity(schema)`: the five phases in order. -/
def cleanJSONSchemaForAntigravity (schema : Json) : Json :=
  if isObjectLike schema then
    addPlaceholders (cleanupRequired (removeUnsupportedKeywords (flattenTypeArrays
      (flattenAnyOfOneOf (mergeAllOf (convertEnumValuesToStrings
        (convertConstToEnum schema)))))))
  else schema

mutual

/-- `p` holds at every node of a value. -/
def allJ (p : Json → Bool) : Json → Bool
  | .arr l => p (.arr l) && allJL p l
  | .obj kvs => p (.obj kvs) && allJKV p kvs
  | j => p j

def allJL (p : Json → Bool) : List Json → Bool
  | [] => true
  | x :: xs => allJ p x && allJL p xs

def allJKV (p : Json → Bool) : List (String × Json) → Bool
  | [] => true
  | (_, v) :: xs => allJ p v && allJKV p xs

end

/-- A node is in cleaned form: no deny-listed keyword, string-only `enum`
lists, no array-valued `type`, a `required` list (when a truthy `properties`
is present) that is non-empty and names only own properties of `properties`,
and strictly-object-typed nodes with a truthy, non-empty `properties`. -/
def cleanedNode (j : Json) : Bool :=
  match j with
  | .obj kvs =>
    UNSUPPORTED_SCHEMA_CONSTRAINTS.all (fun k => (jsGet kvs k).isNone) &&
    (match jsGet kvs "enum" with
     | some (.arr l) => l.all (fun v => match v with | .str _ => true | _ => false)
     | _ => true) &&
    (match jsGet kvs "type" with
     | some (.arr _) => false
     | _ => true) &&
    (match jsGet kvs "required", jsGet kvs "properties" with
     | some (.arr reqs), some props =>
       if jsTruthy props then
         reqs.length != 0 && reqs.all (fun f => jsHasOwn props (jsToString f))
       else true
     | _, _ => true) &&
    (if jsIsStr (jsGet kvs "type") "object" then
       match jsGet kvs "properties" with
       | some p => jsTruthy p && jsKeysLength p != 0
       | none => false
     else true)
  | _ => true

/-! ## SSE stream orchestration (`createSSEStream`, `parseSSELine`)

The translate-mode transform stream of `stream.js`: streaming UTF-8
decoding, line buffering, SSE line parsing, and the record stream the
orchestrator emits around an abstract translator. -/

/-! ### The streaming UTF-8 decoder (`sharedDecoder`, WHATWG `TextDecoder`)

Text is modelled as UTF-16 code units (`List Nat`), the unit JavaScript
strings are built from, so that `split("\n")`, `trim`, `charCodeAt(0)` and
`slice(5)` mean exactly what they mean in the source. -/

/-- State of the WHATWG streaming UTF-8 decoder: the partial code point, how
many continuation bytes were seen and are needed, the admissible range for
the next byte, and whether the first code point (the one a leading BOM would
occupy) has been emitted. -/
structure DecState where
  codepoint : Nat
  bytesSeen : Nat
  bytesNeeded : Nat
  lowerBoundary : Nat
  upperBoundary : Nat
  seenFirst : Bool
  deriving Repr, DecidableEq

def initialDec : DecState :=
  { codepoint := 0
    bytesSeen := 0
    bytesNeeded := 0
    lowerBoundary := 0x80
    upperBoundary := 0xBF
    seenFirst := false }

/-- Reset the partial-code-point fields (the BOM flag persists). -/
def resetDec (st : DecState) : DecState :=
  { st with
    codepoint := 0
    bytesSeen := 0
    bytesNeeded := 0
    lowerBoundary := 0x80
    upperBoundary := 0xBF }

/-- UTF-16 encoding of one code point. -/
def cpToUnits (cp : Nat) : List Nat :=
  if cp < 0x10000 then [cp]
  else [0xD800 + (cp - 0x10000) / 0x400, 0xDC00 + (cp - 0x10000) % 0x400]

/-- Handle one byte arriving with no code point in progress. -/
def decStartByte (st : DecState) (b : Nat) : DecState × List Nat :=
  if b ≤ 0x7F then (resetDec st, [b])
  else if 0xC2 ≤ b ∧ b ≤ 0xDF then
    ({ resetDec st with bytesNeeded := 1, codepoint := b &&& 0x1F }, [])
  else if 0xE0 ≤ b ∧ b ≤ 0xEF then
    ({ resetDec st with
        bytesNeeded := 2
        codepoint := b &&& 0xF
        lowerBoundary := if b = 0xE0 then 0xA0 else 0x80
        upperBoundary := if b = 0xED then 0x9F else 0xBF }, [])
  else if 0xF0 ≤ b ∧ b ≤ 0xF4 then
    ({ resetDec st with
        bytesNeeded := 3
        codepoint := b &&& 0x7
        lowerBoundary := if b = 0xF0 then 0x90 else 0x80
        upperBoundary := if b = 0xF4 then 0x8F else 0xBF }, [])
  else (resetDec st, [0xFFFD])

/-- One byte of the WHATWG UTF-8 decode algorithm, yielding the emitted code
points (a byte outside the continuation range emits U+FFFD and is
reprocessed from a fresh state). -/
def decByteCore (st : DecState) (b : Nat) : DecState × List Nat :=
  if st.bytesNeeded = 0 then decStartByte st b
  else if st.lowerBoundary ≤ b ∧ b ≤ st.upperBoundary then
    let cp := st.codepoint * 64 + (b &&& 0x3F)
    if st.bytesSeen + 1 = st.bytesNeeded then (resetDec st, [cp])
    else ({ st with
            codepoint := cp
            bytesSeen := st.bytesSeen + 1
            lowerBoundary := 0x80
            upperBoundary := 0xBF }, [])
  else
    let r := decStartByte (resetDec st) b
    (r.1, 0xFFFD :: r.2)

/-- Serialize emitted code points to UTF-16 units, suppressing a leading BOM
(the `TextDecoder` default, `ignoreBOM: false`). -/
def emitUnits (seenFirst : Bool) (cps : List Nat) : Bool × List Nat :=
  match seenFirst, cps with
  | false, [] => (false, [])
  | false, c :: rest =>
    (true, (if c = 0xFEFF then [] else cpToUnits c) ++ (rest.map cpToUnits).flatten)
  | true, _ => (true, (cps.map cpToUnits).flatten)

/-- `sharedDecoder.decode(byte, { stream: true })`, one byte at a time. -/
def decByte (st : DecState) (b : Nat) : DecState × List Nat :=
  let r := decByteCore st b
  let e := emitUnits st.seenFirst r.2
  ({ r.1 with seenFirst := e.1 }, e.2)

/-- `sharedDecoder.decode(chunk, { stream: true })`. -/
def decodeBytes : DecState → List Nat → DecState × List Nat
  | st, [] => (st, [])
  | st, b :: bs =>
    let r := decByte st b
    let r2 := decodeBytes r.1 bs
    (r2.1, r.2 ++ r2.2)

/-- `sharedDecoder.decode()` at flush: an unfinished sequence yields U+FFFD. -/
def decFlushUnits (st : DecState) : List Nat :=
  if st.bytesNeeded = 0 then [] else (emitUnits st.seenFirst [0xFFFD]).2

/-! ### Line buffering (`buffer += text; lines = buffer.split("\n"); buffer = lines.pop()`) -/

/-- Feed decoded units into the line buffer: each `"\n"` completes the
current line; what follows the last `"\n"` stays buffered. Equals
`(buffer + text).split("\n")` with the last element retained as the new
buffer. -/
def feedUnits : List Nat → List Nat → List (List Nat) × List Nat
  | buffer, [] => ([], buffer)
  | buffer, u :: us =>
    if u = 10 then
      let r := feedUnits [] us
      (buffer :: r.1, r.2)
    else feedUnits (buffer ++ [u]) us

/-- JavaScript's `trim` whitespace class, on UTF-16 units (the characters
relevant to this development). -/
def jsWhitespaceU (u : Nat) : Bool :=
  u == 9 || u == 10 || u == 11 || u == 12 || u == 13 || u == 32 ||
    u == 160 || u == 65279

/-- `line.trim()` on UTF-16 units. -/
def jsTrimU (us : List Nat) : List Nat :=
  ((us.dropWhile jsWhitespaceU).reverse.dropWhile jsWhitespaceU).reverse

/-! ### `parseSSELine` -/

/-- Result of `parseSSELine`: the `[DONE]` sentinel object `{done:true}`, or
a parsed JSON value. -/
inductive SSEParsed where
  | done
  | json (j : Json)
  deriving Repr, DecidableEq

/-- `"[DONE]"` as UTF-16 units. -/
def doneUnits : List Nat := [91, 68, 79, 78, 69, 93]

/-- `parseSSELine(line)` over an abstract `JSON.parse` (`p`, returning `none`
where `JSON.parse` throws): `null` unless the line starts with `d`
(`charCodeAt(0) === 100`); otherwise parse `line.slice(5).trim()`, with the
`[DONE]` sentinel short-circuiting the JSON parse. -/
def parseSSELine (p : List Nat → Option Json) (line : List Nat) : Option SSEParsed :=
  match line with
  | [] => none
  | u :: _ =>
    if u ≠ 100 then none
    else
      let data := jsTrimU (line.drop 5)
      if data = doneUnits then some .done
      else
        match p data with
        | some j => some (.json j)
        | none => none

/-! ### C7: the parsing skeleton of `createSSEStream` -/

/-- Decoder and line-buffer state of one `createSSEStream` run. -/
structure SSEPipe where
  dec : DecState
  buffer : List Nat
  deriving Repr, DecidableEq

def initPipe : SSEPipe :=
  { dec := initialDec
    buffer := [] }

/-- One `transform(chunk)` call, as far as parsing goes: decode the bytes,
extend the buffer, and return the completed lines in order. -/
def pipeTransform (st : SSEPipe) (chunk : List Nat) : SSEPipe × List (List Nat) :=
  let d := decodeBytes st.dec chunk
  let f := feedUnits st.buffer d.2
  ({ dec := d.1, buffer := f.2 }, f.1)

/-- The final line `flush` examines: the buffer extended by the decoder's
own flush, trimmed (`buffer.trim()`). -/
def pipeFlushLine (st : SSEPipe) : List Nat :=
  jsTrimU (st.buffer ++ decFlushUnits st.dec)

/-- The sequence of `parseSSELine` results produced by feeding the fragments
through `transform` one at a time and then flushing: each completed line is
trimmed and parsed (blank and unparsable lines yield nothing), and the final
buffered line is parsed at flush. -/
def runParse (p : List Nat → Option Json) (st : SSEPipe) :
    List (List Nat) → List SSEParsed
  | [] => (parseSSELine p (pipeFlushLine st)).toList
  | c :: cs =>
    let r := pipeTransform st c
    r.2.filterMap (fun l => parseSSELine p (jsTrimU l)) ++ runParse p r.1 cs

/-! ### C2: the translate-mode record stream -/

/-- One output record of the translate-mode orchestrator: the literal
`data: [DONE]\n\n` record, or the `formatSSE` rendering of one translated
event (every translated event carries a `type`/`event` field and is rendered
as an event record, never as the done record). -/
inductive OutRecord (ε : Type) where
  | doneRec
  | eventRec (e : ε)
  deriving Repr, DecidableEq

/-- Number of `data: [DONE]\n\n` records. -/
def countDone {ε : Type} (recs : List (OutRecord ε)) : Nat :=
  recs.countP (fun r => match r with | .doneRec => true | _ => false)

/-- Records emitted for one completed line in translate mode: blank or
unparsable lines are skipped; an upstream terminal line (`[DONE]` sentinel,
or any truthy parsed value with a truthy `done` field) is forwarded as a
done record at once; any other truthy parsed value goes through
`translateResponse` (abstracted as `translate`, which also covers the
`extractUsage` update of `state.usage`), whose events are enqueued; falsy
parsed values are skipped. -/
def lineRecords {σ ε : Type} (p : List Nat → Option Json)
    (translate : Json → σ → σ × List ε) (st : σ) (line : List Nat) :
    σ × List (OutRecord ε) :=
  match parseSSELine p (jsTrimU line) with
  | none => (st, [])
  | some .done => (st, [.doneRec])
  | some (.json j) =>
    if !jsTruthy j then (st, [])
    else if jsTruthyOpt (jsGetF j "done") then (st, [.doneRec])
    else
      let r := translate j st
      (r.1, r.2.map .eventRec)

/-- Full state of one translate-mode `createSSEStream` run. -/
structure TPipe (σ : Type) where
  dec : DecState
  buffer : List Nat
  trState : σ

/-- One `transform(chunk)` call in translate mode. -/
def tpipeTransform {σ ε : Type} (p : List Nat → Option Json)
    (translate : Json → σ → σ × List ε) (st : TPipe σ) (chunk : List Nat) :
    TPipe σ × List (OutRecord ε) :=
  let d := decodeBytes st.dec chunk
  let f := feedUnits st.buffer d.2
  let z := f.1.foldl
    (fun (acc : σ × List (OutRecord ε)) line =>
      let r := lineRecords p translate acc.1 line
      (r.1, acc.2 ++ r.2))
    (st.trState, [])
  ({ dec := d.1, buffer := f.2, trState := z.1 }, z.2)

/-- `flush(controller)` in translate mode: parse the remaining buffered line
(translating it unless it is terminal or unparsable), emit the translator's
flush events (`translateResponse(..., null, state)`, abstracted as
`flushT`), and always append the final `data: [DONE]\n\n` record. -/
def tpipeFlush {σ ε : Type} (p : List Nat → Option Json)
    (translate : Json → σ → σ × List ε) (flushT : σ → List ε)
    (st : TPipe σ) : List (OutRecord ε) :=
  let buf := jsTrimU (st.buffer ++ decFlushUnits st.dec)
  let z :=
    match parseSSELine p buf with
    | some (.json j) =>
      if jsTruthy j && !jsTruthyOpt (jsGetF j "done") then
        let r := translate j st.trState
        (r.1, r.2.map OutRecord.eventRec)
      else (st.trState, [])
    | _ => (st.trState, [])
  z.2 ++ (flushT z.1).map .eventRec ++ [.doneRec]

/-- The record stream of one translate-mode run over the given fragments. -/
def runTPipe {σ ε : Type} (p : List Nat → Option Json)
    (translate : Json → σ → σ × List ε) (flushT : σ → List ε)
    (st : TPipe σ) : List (List Nat) → List (OutRecord ε)
  | [] => tpipeFlush p translate flushT st
  | c :: cs =>
    let r := tpipeTransform p translate st c
    r.2 ++ runTPipe p translate flushT r.1 cs

/-- Whether a completed upstream line is terminal: it parses to the `[DONE]`
sentinel, or to a truthy value with a truthy `done` field. -/
def isDoneLine (p : List Nat → Option Json) (l : List Nat) : Bool :=
  match parseSSELine p (jsTrimU l) with
  | some .done => true
  | some (.json j) => jsTruthy j && jsTruthyOpt (jsGetF j "done")
  | none => false

/-- The number of terminal upstream lines completed over a run (the flushed
final line is never forwarded as a done record and is not counted). -/
def doneLinesIn (p : List Nat → Option Json) (dec : DecState)
    (buffer : List Nat) : List (List Nat) → Nat
  | [] => 0
  | c :: cs =>
    let d := decodeBytes dec c
    let f := feedUnits buffer d.2
    f.1.countP (isDoneLine p) + doneLinesIn p d.1 f.2 cs

/-- The upstream record `"data: [DONE]\n\n"`, as bytes. -/
def doneLineBytes : List Nat := [100, 97, 116, 97, 58, 32, 91, 68, 79, 78, 69, 93, 10, 10]

/-! ## Claude → OpenAI request translation (`claudeToOpenAIRequest`)

The message-assembly part of `claudeToOpenAIRequest`: the system message, the
per-message conversion `convertClaudeMessage`, and the
`fixMissingToolResponses` scan.  The remaining output fields (`model`,
`max_tokens` via the external `adjustMaxTokens` helper, `temperature`,
`tools`, `tool_choice`) do not touch the messages array. -/

/-- An item of a `tool_result` block's content array (fields read: `type`,
`text`). -/
structure TRItem where
  type : String
  text : Option String
  deriving Repr, DecidableEq

/-- The `content` of a Claude `tool_result` block: a string, an array of
items, or some other truthy JSON value.  The non-string shapes carry their
`JSON.stringify` image, which is the only use the code makes of them. -/
inductive TRContent where
  | str (s : String)
  | items (l : List TRItem) (stringified : String)
  | other (stringified : String)
  deriving Repr, DecidableEq

/-- The `source` of a Claude `image` block. -/
structure ImgSource where
  type : String
  media_type : String
  data : String
  deriving Repr, DecidableEq

/-- A Claude request content block (the fields `convertClaudeMessage` reads). -/
inductive CReqBlock where
  | text (s : String)
  | image (source : Option ImgSource)
  | tool_use (id : Option String) (name : String) (input : Option Json)
  | tool_result (tool_use_id : Option String) (content : Option TRContent)
  | unknown
  deriving Repr, DecidableEq

/-- The `content` of a Claude request message: a string or a block array. -/
inductive CReqContent where
  | str (s : String)
  | blocks (l : List CReqBlock)
  deriving Repr, DecidableEq

/-- A Claude request message. -/
structure CReqMsg where
  role : String
  content : Option CReqContent
  deriving Repr, DecidableEq

/-- A Claude request `system` field: a string or an array of text blocks
(each entry's `s.text || ""`). -/
inductive CSystem where
  | str (s : String)
  | arr (l : List (Option String))
  deriving Repr, DecidableEq

/-- The fields of a Claude request body that determine the output messages. -/
structure CReqBody where
  system : Option CSystem
  messages : Option (List CReqMsg)
  deriving Repr, DecidableEq

/-- A content part of an OpenAI request message. -/
inductive OAReqPart where
  | text (s : String)
  | image_url (url : String)
  deriving Repr, DecidableEq

/-- The `content` of an OpenAI request message. -/
inductive OAReqContent where
  | str (s : String)
  | parts (l : List OAReqPart)
  deriving Repr, DecidableEq

/-- A `tool_calls` entry of an OpenAI assistant request message. -/
structure OAToolCallReq where
  id : Option String
  name : String
  arguments : String
  deriving Repr, DecidableEq

/-- An OpenAI request message as produced by the Claude→OpenAI request
translator. -/
structure OAMsg where
  role : String
  content : Option OAReqContent
  tool_call_id : Option String
  tool_calls : Option (List OAToolCallReq)
  deriving Repr, DecidableEq

/-- The `tool_result`-content extraction of `convertClaudeMessage`. -/
def trContentToString (c : Option TRContent) : String :=
  match c with
  | some (.str s) => s
  | some (.items l fallback) =>
    let joined := String.intercalate "\n"
      ((l.filter (fun i => i.type == "text")).map (fun i => i.text.getD ""))
    if joined = "" then fallback else joined
  | some (.other fallback) => fallback
  | none => ""

/-- `parts.length === 1 && parts[0].type === "text" ? parts[0].text : parts`. -/
def partsToContent (parts : List OAReqPart) : OAReqContent :=
  match parts with
  | [OAReqPart.text t] => .str t
  | _ => .parts parts

/-- `block.input || {}` — the tool-use input with JavaScript falsy fallback. -/
def toolInputOrEmpty (input : Option Json) : Json :=
  match input with
  | some j => if jsTruthy j then j else .obj []
  | none => .obj []

/-- `convertClaudeMessage(msg)` of the source: convert one Claude message into
zero or more OpenAI messages (`none` models the `null` return). -/
def convertClaudeMessage (msg : CReqMsg) : Option (List OAMsg) :=
  let role := if msg.role == "user" || msg.role == "tool" then "user" else "assistant"
  match msg.content with
  | some (.str s) =>
    some [{ role := role, content := some (.str s), tool_call_id := none, tool_calls := none }]
  | some (.blocks bl) =>
    let parts := bl.foldl (fun acc b =>
      match b with
      | .text s => acc ++ [OAReqPart.text s]
      | .image src =>
        match src with
        | some s =>
          if s.type == "base64" then
            acc ++ [OAReqPart.image_url ("data:" ++ s.media_type ++ ";base64," ++ s.data)]
          else acc
        | none => acc
      | _ => acc) []
    let toolCalls : List OAToolCallReq := bl.foldl (fun acc b =>
      match b with
      | .tool_use id name input =>
        acc ++ [{ id := id, name := name,
                  arguments := jsonStringify (toolInputOrEmpty input) }]
      | _ => acc) []
    let toolResults : List OAMsg := bl.foldl (fun acc b =>
      match b with
      | .tool_result tuid content =>
        acc ++ [{ role := "tool", content := some (.str (trContentToString content)),
                  tool_call_id := tuid, tool_calls := none }]
      | _ => acc) []
    if !toolResults.isEmpty then
      if !parts.isEmpty then
        some (toolResults ++
          [{ role := "user", content := some (partsToContent parts),
             tool_call_id := none, tool_calls := none }])
      else some toolResults
    else if !toolCalls.isEmpty then
      some [{ role := "assistant"
              content := if parts.isEmpty then none else some (partsToContent parts)
              tool_call_id := none
              tool_calls := some toolCalls }]
    else if !parts.isEmpty then
      some [{ role := role, content := some (partsToContent parts),
              tool_call_id := none, tool_calls := none }]
    else if bl.isEmpty then
      some [{ role := role, content := some (.str ""), tool_call_id := none,
              tool_calls := none }]
    else none
  | none => none

/-- A message counted as a responding tool message by the
`fixMissingToolResponses` scan: `role === "tool"` with a truthy
`tool_call_id`. -/
def isToolResp (m : OAMsg) : Bool :=
  m.role == "tool" && (truthyS m.tool_call_id).isSome

/-- An assistant message carrying at least one tool call. -/
def isAssistantWithCalls (m : OAMsg) : Bool :=
  m.role == "assistant" &&
    (match m.tool_calls with
     | some l => !l.isEmpty
     | none => false)

/-- The placeholder response synthesized for an unanswered tool call. -/
def mkPlaceholder (id : Option String) : OAMsg :=
  { role := "tool", content := some (.str "[No response received]"),
    tool_call_id := id, tool_calls := none }

/-- The call ids of `m` not answered within the run `run` of responding tool
messages (`respondedIds` collects truthy `tool_call_id`s; a `Set` never
contains `undefined`, so an absent id is always missing). -/
def missingIdsOf (m : OAMsg) (run : List OAMsg) : List (Option String) :=
  ((m.tool_calls.getD []).map (·.id)).filter (fun id =>
    match id with
    | some s => !((run.filterMap (fun t => truthyS t.tool_call_id)).contains s)
    | none => true)

/-- `fixMissingToolResponses(messages)` of the source: for each assistant
message with tool calls, collect the run of responding tool messages
immediately following it, and insert a `"[No response received]"` placeholder
at the end of that run for every unanswered call id; scanning resumes after
the run. -/
def fixMissingToolResponses : List OAMsg → List OAMsg
  | [] => []
  | m :: rest =>
    if isAssistantWithCalls m then
      let run := rest.takeWhile isToolResp
      m :: (run ++ (missingIdsOf m run).map mkPlaceholder
            ++ fixMissingToolResponses (rest.dropWhile isToolResp))
    else m :: fixMissingToolResponses rest
termination_by l => l.length
decreasing_by
  · simp only [List.length_cons]
    have := (List.dropWhile_sublist (l := rest) isToolResp).length_le
    omega
  · simp [Nat.lt_succ_self]

/-- The messages array produced by `claudeToOpenAIRequest`: the optional
system message, the converted Claude messages, then the
`fixMissingToolResponses` scan. -/
def claudeToOpenAIRequestMessages (body : CReqBody) : List OAMsg :=
  let sysMsgs : List OAMsg :=
    match body.system with
    | none => []
    | some (.str s) =>
      if s = "" then []
      else [{ role := "system", content := some (.str s), tool_call_id := none,
              tool_calls := none }]
    | some (.arr l) =>
      let s := String.intercalate "\n" (l.map (fun o => o.getD ""))
      if s = "" then []
      else [{ role := "system", content := some (.str s), tool_call_id := none,
              tool_calls := none }]
  let converted := (body.messages.getD []).foldl
    (fun acc m => acc ++ (convertClaudeMessage m).getD []) []
  fixMissingToolResponses (sysMsgs ++ converted)

/-- The claim's postcondition, checked recursively: every assistant message
carrying tool calls has, in the run of `role:"tool"` messages immediately
following it, a response for each of its tool-call ids. -/
def toolCallsAnsweredB : List OAMsg → Bool
  | [] => true
  | m :: rest =>
    (if isAssistantWithCalls m then
      (m.tool_calls.getD []).all (fun tc =>
        (rest.takeWhile (fun x => x.role == "tool")).any
          (fun t => t.tool_call_id == tc.id))
    else true)
    && toolCallsAnsweredB rest

/-! ## OpenAI → Kiro request conversion (`convertMessages`)

The message-conversion core of the OpenAI→Kiro request translator: normalize
`system`/`tool` roles to `user`, merge consecutive same-role turns, attach
tool results to the enclosing user turn, attach tool specifications, and run
the final history cleanup.  `uuid` stands for `uuidv4()` and `jparse` for a
successful `JSON.parse` of a tool-call argument string (the code would throw
on malformed arguments). -/

/-- `a || b` where `a` is an optional JSON value tested for JavaScript
truthiness. -/
def jsOrJson (a : Option Json) (b : Json) : Json :=
  match a with
  | some j => if jsTruthy j then j else b
  | none => b

/-- The `content` of a `tool_result` block as the Kiro converter reads it — a
string, or an array whose items contribute their `text` fields (`c.text || ""`). -/
inductive KTRC where
  | str (s : String)
  | arr (texts : List (Option String))
  deriving Repr, DecidableEq

/-- A content block of an incoming message (fields the Kiro converter reads:
`type`, `text`, `tool_use_id`, `content`, and for `tool_use` blocks `id`,
`name`, `input`). -/
structure KInPart where
  type : String
  text : Option String
  tool_use_id : Option String
  content : Option KTRC
  id : Option String
  name : Option String
  input : Option Json
  deriving Repr, DecidableEq

/-- A tool-use entry: either an OpenAI `tool_calls` entry (`tc.function`
present, arguments a string to be `JSON.parse`d or already an object) or a
Claude-style `tool_use` content block. -/
inductive KToolUse where
  | fn (id : Option String) (name : Option String) (argStr : Option String)
       (argObj : Option Json)
  | blk (id : Option String) (name : Option String) (input : Option Json)
  deriving Repr, DecidableEq

/-- The `content` of an incoming message. -/
inductive KContent where
  | str (s : String)
  | blocks (l : List KInPart)
  deriving Repr, DecidableEq

/-- An incoming (OpenAI-shaped) message for the Kiro converter. -/
structure KInMsg where
  role : String
  content : Option KContent
  tool_call_id : Option String
  tool_calls : Option (List KToolUse)
  deriving Repr, DecidableEq

/-- An entry of `body.tools` (fields read when building tool specifications;
the `f`-prefixed fields model `t.function?.…`). -/
structure KToolIn where
  fname : Option String
  fdesc : Option String
  fparams : Option Json
  name : Option String
  description : Option String
  parameters : Option Json
  input_schema : Option Json
  deriving Repr, DecidableEq

/-- A Kiro `toolSpecification` (its `inputSchema.json` value inlined). -/
structure KToolSpec where
  name : Option String
  description : String
  inputSchema : Json
  deriving Repr, DecidableEq

/-- A Kiro `toolResults` entry (`status` is constantly `"success"` and the
`content` array holds a single `{text}` item, modelled by its text). -/
structure KToolResult where
  toolUseId : Option String
  text : String
  deriving Repr, DecidableEq

/-- A `userInputMessageContext` (present keys modelled as `some`). -/
structure KCtx where
  toolResults : Option (List KToolResult)
  tools : Option (List KToolSpec)
  deriving Repr, DecidableEq

/-- A Kiro `userInputMessage`. -/
structure KUserMsg where
  content : String
  modelId : String
  ctx : Option KCtx
  deriving Repr, DecidableEq

/-- A Kiro `toolUses` entry of an assistant turn. -/
structure KToolUseOut where
  toolUseId : String
  name : Option String
  input : Json
  deriving Repr, DecidableEq

/-- A Kiro `assistantResponseMessage`. -/
structure KAsstMsg where
  content : String
  toolUses : Option (List KToolUseOut)
  deriving Repr, DecidableEq

/-- One turn of a Kiro conversation. -/
inductive KMsg where
  | user (m : KUserMsg)
  | asst (m : KAsstMsg)
  deriving Repr, DecidableEq

/-- Build one `toolSpecification` from a `body.tools` entry. -/
def kMkToolSpec (t : KToolIn) : KToolSpec :=
  let name := firstTruthyS t.fname t.name
  let desc0 := (firstTruthyS t.fdesc t.description).getD ""
  let desc := if jsTrim desc0 = "" then "Tool: " ++ name.getD "undefined" else desc0
  { name := name
    description := desc
    inputSchema := jsOrJson t.fparams (jsOrJson t.parameters
      (jsOrJson t.input_schema (.obj []))) }

/-- Convert one tool-use entry to a Kiro `toolUses` entry
(`tc.id || uuidv4()`; string arguments go through `JSON.parse`). -/
def kToolUseOut (jparse : String → Json) (uuid : String) : KToolUse → KToolUseOut
  | .fn id name argStr argObj =>
    { toolUseId := (truthyS id).getD uuid
      name := name
      input := match argStr with
        | some s => jparse s
        | none => jsOrJson argObj (.obj []) }
  | .blk id name input =>
    { toolUseId := (truthyS id).getD uuid
      name := name
      input := jsOrJson input (.obj []) }

/-- The mutable state of the `convertMessages` loop. `curUserIdx` tracks the
history index of the message the `currentMessage` variable aliases (the last
user turn flushed into history). -/
structure KConvState where
  history : List KMsg
  pendingUserContent : List String
  pendingAssistantContent : List String
  pendingToolResults : List KToolResult
  currentRole : Option String
  curUserIdx : Option Nat
  deriving Repr, DecidableEq

/-- `flushPending()` of the source: push the pending user or assistant turn
into history; a user turn flushed while history is empty receives the tool
specifications. -/
def kFlushPending (tools : List KToolIn) (st : KConvState) : KConvState :=
  match st.currentRole with
  | some "user" =>
    let content0 := jsTrim (String.intercalate "\n\n" st.pendingUserContent)
    let content := if content0 = "" then "continue" else content0
    let trOpt : Option (List KToolResult) :=
      if st.pendingToolResults.isEmpty then none else some st.pendingToolResults
    let ctx : Option KCtx :=
      if !tools.isEmpty && st.history.isEmpty then
        some { toolResults := trOpt, tools := some (tools.map kMkToolSpec) }
      else
        match trOpt with
        | some trs => some { toolResults := some trs, tools := none }
        | none => none
    { st with
        history := st.history ++ [KMsg.user { content := content, modelId := "", ctx := ctx }]
        curUserIdx := some st.history.length
        pendingUserContent := []
        pendingToolResults := [] }
  | some "assistant" =>
    let content0 := jsTrim (String.intercalate "\n\n" st.pendingAssistantContent)
    let content := if content0 = "" then "..." else content0
    { st with
        history := st.history ++ [KMsg.asst { content := content, toolUses := none }]
        pendingAssistantContent := [] }
  | _ => st

/-- Text extraction from a user message's content (the string case, or the
join of the text-bearing blocks). -/
def kUserText (content : Option KContent) : String :=
  match content with
  | some (.str s) => s
  | some (.blocks l) =>
    String.intercalate "\n"
      ((l.filter (fun c => c.type == "text" || (truthyS c.text).isSome)).map
        (fun c => c.text.getD ""))
  | none => ""

/-- The `toolResults` contributed by the `tool_result` blocks of a user
message's content array. -/
def kUserToolResults (content : Option KContent) : List KToolResult :=
  match content with
  | some (.blocks l) =>
    (l.filter (fun c => c.type == "tool_result")).map (fun b =>
      let text := match b.content with
        | some (.arr items) => String.intercalate "\n" (items.map (fun t => t.getD ""))
        | some (.str s) => s
        | none => ""
      { toolUseId := b.tool_use_id, text := text })
  | _ => []

/-- Text extraction from an assistant message's content. -/
def kAsstText (content : Option KContent) : String :=
  match content with
  | some (.blocks l) =>
    jsTrim (String.intercalate "\n"
      ((l.filter (fun c => c.type == "text")).map (fun c => c.text.getD "")))
  | some (.str s) => jsTrim s
  | none => ""

/-- The `tool_use` content blocks of an assistant message. -/
def kAsstBlockUses (content : Option KContent) : List KToolUse :=
  match content with
  | some (.blocks l) =>
    (l.filter (fun c => c.type == "tool_use")).map (fun c => KToolUse.blk c.id c.name c.input)
  | _ => []

/-- One iteration of the `convertMessages` message loop. -/
def kStepMsg (jparse : String → Json) (uuid : String) (tools : List KToolIn)
    (st : KConvState) (msg : KInMsg) : KConvState :=
  let role := if msg.role == "system" || msg.role == "tool" then "user" else msg.role
  let st :=
    if st.currentRole ≠ some role ∧ st.currentRole ≠ none then kFlushPending tools st
    else st
  let st := { st with currentRole := some role }
  if role == "user" then
    let content := kUserText msg.content
    let st := { st with
      pendingToolResults := st.pendingToolResults ++ kUserToolResults msg.content }
    if msg.role == "tool" then
      let toolContent := match msg.content with | some (.str s) => s | _ => ""
      { st with pendingToolResults := st.pendingToolResults ++
          [{ toolUseId := msg.tool_call_id, text := toolContent }] }
    else if content ≠ "" then
      { st with pendingUserContent := st.pendingUserContent ++ [content] }
    else st
  else if role == "assistant" then
    let textContent := kAsstText msg.content
    let toolUses :=
      match msg.tool_calls with
      | some l => if !l.isEmpty then l else kAsstBlockUses msg.content
      | none => kAsstBlockUses msg.content
    let st :=
      if textContent ≠ "" then
        { st with pendingAssistantContent := st.pendingAssistantContent ++ [textContent] }
      else st
    if !toolUses.isEmpty then
      let st := kFlushPending tools st
      let st :=
        match st.history.getLast? with
        | some (KMsg.asst a) =>
          { st with history := st.history.dropLast ++
              [KMsg.asst { a with toolUses := some (toolUses.map (kToolUseOut jparse uuid)) }] }
        | _ => st
      { st with currentRole := none }
    else st
  else st

/-- Delete `tools` from a context and drop it when it becomes empty
(`Object.keys(ctx).length === 0`). -/
def kStripTools (ctx : Option KCtx) : Option KCtx :=
  match ctx with
  | some c =>
    if c.toolResults.isSome then some { c with tools := none } else none
  | none => none

/-- The final history cleanup of `convertMessages`: strip tool
specifications, drop empty contexts, and default `modelId`. -/
def kCleanupHistory (model : String) (history : List KMsg) : List KMsg :=
  history.map (fun item =>
    match item with
    | KMsg.user u =>
      KMsg.user { u with
        ctx := kStripTools u.ctx
        modelId := if u.modelId = "" then model else u.modelId }
    | a => a)

/-- The post-loop extraction of `currentMessage`: pop the last history item
when it is a user turn, otherwise keep the alias to the last flushed user
turn (its history index). -/
def kPopCurrent (st : KConvState) : List KMsg × Option KUserMsg × Option Nat :=
  match st.history.getLast? with
  | some (KMsg.user u) => (st.history.dropLast, some u, none)
  | _ =>
    match st.curUserIdx with
    | some i =>
      (st.history,
       (match st.history.get? i with
        | some (KMsg.user u) => some u
        | _ => none), some i)
    | none => (st.history, none, none)

/-- Copy the first history turn's tools onto the current message when the
current message has none; an aliased current message is updated inside
history as well. -/
def kCopyTools (history : List KMsg) (current : Option KUserMsg)
    (aliasIdx : Option Nat) : List KMsg × Option KUserMsg :=
  let firstTools : Option (List KToolSpec) :=
    match history.head? with
    | some (KMsg.user u) => u.ctx.bind (·.tools)
    | _ => none
  match firstTools, current with
  | some ts, some u =>
    if (u.ctx.bind (·.tools)).isSome then (history, some u)
    else
      let u' : KUserMsg := { u with
        ctx := some { toolResults := u.ctx.bind (·.toolResults), tools := some ts } }
      match aliasIdx with
      | some i => (history.set i (KMsg.user u'), some u')
      | none => (history, some u')
  | _, _ => (history, current)

/-- `convertMessages(messages, tools, model)` of the source: returns the
cleaned `history` and the `currentMessage` (the trailing user turn, with the
tools moved onto it when it is distinct from the first user turn; when the
conversation ends with an assistant turn, `currentMessage` aliases a history
element and the cleanup strips its tools too). -/
def convertMessages (jparse : String → Json) (uuid : String)
    (messages : List KInMsg) (tools : List KToolIn) (model : String) :
    List KMsg × Option KUserMsg :=
  let st0 : KConvState :=
    { history := [], pendingUserContent := [], pendingAssistantContent := []
      pendingToolResults := [], currentRole := none, curUserIdx := none }
  let st := messages.foldl (kStepMsg jparse uuid tools) st0
  let st := if st.currentRole ≠ none then kFlushPending tools st else st
  let pca := kPopCurrent st
  let hc := kCopyTools pca.1 pca.2.1 pca.2.2
  let cleaned := kCleanupHistory model hc.1
  -- an aliased currentMessage is mutated by the cleanup as well
  let currentOut :=
    match pca.2.2 with
    | some i =>
      (match cleaned.get? i with
       | some (KMsg.user u) => some u
       | _ => none)
    | none => hc.2
  (cleaned, currentOut)

/-- Does a Kiro turn carry tool specifications? -/
def kMsgHasTools : KMsg → Bool
  | KMsg.user u => (u.ctx.bind (·.tools)).isSome
  | _ => false

/-- A three-turn conversation (`user`, `assistant`, `user`) with one tool. -/
def kExMessages : List KInMsg :=
  [{ role := "user", content := some (.str "a"), tool_call_id := none, tool_calls := none },
   { role := "assistant", content := some (.str "b"), tool_call_id := none, tool_calls := none },
   { role := "user", content := some (.str "c"), tool_call_id := none, tool_calls := none }]

/-- One tool for the Kiro conversion example. -/
def kExTools : List KToolIn :=
  [{ fname := some "get_weather", fdesc := some "weather lookup"
     fparams := some (.obj [("type", .str "object")])
     name := none, description := none, parameters := none, input_schema := none }]

/-- A Claude request in which the assistant's second tool call
(`call_2`) is never answered: exercises the placeholder synthesis. -/
def unansweredToolBody : CReqBody :=
  { system := none
    messages := some [
      { role := "user", content := some (.str "hi") },
      { role := "assistant", content := some (.blocks [
          .tool_use (some "call_1") "get_weather" (some (.obj [("city", .str "Paris")])),
          .tool_use (some "call_2") "get_time" none ]) },
      { role := "user", content := some (.blocks [
          .tool_result (some "call_1") (some (.str "sunny")) ]) } ] }

/-! ## Concrete inputs and event counters for the streaming-translator claims -/

/-- An OpenAI chunk carrying only text content (and optionally a
finish_reason), as in the spec's concrete scenario 2. -/
def mkTextChunk (s : String) (fin : Option String) : OAChunk :=
  { id := none
    model := none
    choices := some [{
      delta := some { content := some s, reasoning_content := none, reasoning := none, tool_calls := none }
      finish_reason := fin }]
    extend_fields := none
    usage := none }

/-- The first chunk of concrete scenario 2:
`{"choices":[{"delta":{"content":"Hel"}}]}`. -/
def scenario2Chunk1 : OAChunk := mkTextChunk "Hel" none

/-- The second chunk of concrete scenario 2:
`{"choices":[{"delta":{"content":"lo"},"finish_reason":"stop"}]}`. -/
def scenario2Chunk2 : OAChunk := mkTextChunk "lo" (some "stop")

/-- An OpenAI chunk whose only payload is a `finish_reason` (a bare terminal
signal). -/
def bareFinishChunk : OAChunk :=
  { id := none
    model := none
    choices := some [{ delta := none, finish_reason := some "stop" }]
    extend_fields := none
    usage := none }

/-- Feed a list of chunks through `openaiToClaudeResponse` in order,
threading the state and concatenating all emitted events. -/
def runOCChunks : List OAChunk → OCState → Nat → List ClaudeEvent × OCState
  | [], st, _ => ([], st)
  | c :: rest, st, now =>
    let (r, st') := openaiToClaudeResponse (some c) st now
    let (rs, st'') := runOCChunks rest st' now
    (r.getD [] ++ rs, st'')

/-- Recognize a `message_start` event. -/
def isMessageStart : ClaudeEvent → Bool
  | .message_start _ _ => true
  | _ => false

/-- Recognize a `message_stop` event. -/
def isMessageStop : ClaudeEvent → Bool
  | .message_stop => true
  | _ => false

/-- Recognize a `message_delta` (stop-reason) event. -/
def isMessageDelta : ClaudeEvent → Bool
  | .message_delta _ => true
  | _ => false

/-- Does the chunk pass the translator's `chunk.choices?.[0]` guard? -/
def hasChoiceB (c : OAChunk) : Bool :=
  ((c.choices.getD []).head?).isSome

/-- Does the chunk's first choice carry a truthy `finish_reason`? -/
def hasFinishB (c : OAChunk) : Bool :=
  match (c.choices.getD []).head? with
  | some ch => (truthyS ch.finish_reason).isSome
  | none => false

/-- Recognize a content-block-level event (`content_block_start`,
`content_block_delta`, `content_block_stop`). -/
def isBlockEvent : ClaudeEvent → Bool
  | .content_block_start _ _ => true
  | .content_block_delta _ _ => true
  | .content_block_stop _ => true
  | _ => false

/-! ## Theorems: streaming-translator claims -/

/-- **C1.** Feeding the two chunks `{"choices":[{"delta":{"content":"Hel"}}]}`
and `{"choices":[{"delta":{"content":"lo"},"finish_reason":"stop"}]}` into the
OpenAI→Claude translator from a fresh streaming state produces exactly:
`message_start`, `content_block_start` of a text block, `content_block_delta`
with text `"Hel"`, `content_block_delta` with text `"lo"`,
`content_block_stop`, `message_delta` with stop_reason `end_turn`, and
`message_stop`, in that order (`n1`, `n2` are the clock values of the two
calls). -/
theorem C1_openai_to_claude_scenario2 (n1 n2 : Nat) :
    (openaiToClaudeResponse (some scenario2Chunk1) freshOCState n1).1.getD [] ++
    (openaiToClaudeResponse (some scenario2Chunk2)
        (openaiToClaudeResponse (some scenario2Chunk1) freshOCState n1).2 n2).1.getD [] =
    [ClaudeEvent.message_start ("msg_" ++ toString n1) "unknown",
     ClaudeEvent.content_block_start 0 .text,
     ClaudeEvent.content_block_delta 0 (.text_delta "Hel"),
     ClaudeEvent.content_block_delta 0 (.text_delta "lo"),
     ClaudeEvent.content_block_stop 0,
     ClaudeEvent.message_delta "end_turn",
     ClaudeEvent.message_stop] := by
  simp [openaiToClaudeResponse, ocProcessChoice, scenario2Chunk1, scenario2Chunk2,
    mkTextChunk, freshOCState, ocStartSection, ocReasonSection, ocContentSection,
    ocToolSection, ocFinishSection, stopTextBlock, stopThinkingBlock, mkMessageId,
    truthyS, firstTruthyS, convertFinishReason, optList]

/-- **C10.** A non-null chunk whose `choices` field is missing or an empty
array (e.g. an OpenAI usage-only final chunk) makes the OpenAI→Claude
translator return `null` with the streaming state entirely unchanged. -/
theorem C10_missing_or_empty_choices_is_noop (c : OAChunk) (st : OCState) (now : Nat)
    (h : c.choices = none ∨ c.choices = some []) :
    openaiToClaudeResponse (some c) st now = (none, st) := by
  rcases h with h | h <;> simp [openaiToClaudeResponse, h]

/-- Witness for C10: a concrete usage-only chunk (no `choices`) is a no-op on
the fresh state. -/
theorem C10_witness :
    openaiToClaudeResponse
      (some { id := none
              model := none
              choices := none
              extend_fields := none
              usage := some { prompt_tokens := some 3, completion_tokens := some 5, cached_tokens := none, reasoning_tokens := none } })
      freshOCState 0 = (none, freshOCState) :=
  C10_missing_or_empty_choices_is_noop _ freshOCState 0 (Or.inl rfl)

/-- **C9.** A tool-call argument delta whose index was never opened is a
no-op in both directions: the Claude→OpenAI translator on an
`input_json_delta` whose index has no entry in `state.toolCalls`, and the
OpenAI→Claude translator on a `tool_calls` arguments fragment whose index has
no entry, both emit no event and leave the state unchanged (no exception is
possible: both are total functions). -/
theorem C9_unopened_tool_delta_is_noop
    (cidx : Option Nat) (s1 s2 : String) (cst : COState) (ost : OCState)
    (i now now' : Nat)
    (h1 : coMapGet cst.toolCalls (cidx.getD 0) = none) (h2 : s1 ≠ "")
    (h3 : mapGet ost.toolCalls i = none) (h4 : s2 ≠ "")
    (h5 : ost.messageStartSent = true) :
    claudeToOpenAIResponse
        (some { type := "content_block_delta"
                message := none
                index := cidx
                content_block := none
                delta := some { type := some "input_json_delta", text := none, thinking := none, partial_json := some s1, stop_reason := none } })
        cst now = (none, cst)
  ∧ openaiToClaudeResponse
        (some { id := none
                model := none
                choices := some [{
                  delta := some { content := none, reasoning_content := none, reasoning := none, tool_calls := some [{ index := some i, id := none, fname := none, fargs := some s2 }] }
                  finish_reason := none }]
                extend_fields := none
                usage := none })
        ost now' = (none, ost) := by
  constructor
  · simp [claudeToOpenAIResponse, truthyS, h2, h1]
  · simp [openaiToClaudeResponse, ocProcessChoice, ocStartSection, ocReasonSection,
      ocContentSection, ocToolSection, ocFinishSection, oaToolCallStep, truthyS,
      firstTruthyS, h3, h4, h5, optList]

/-- Witness for C9: concrete unopened-index deltas (index 0, empty tool-call
maps) are no-ops in both translators. -/
theorem C9_witness :
    claudeToOpenAIResponse
        (some { type := "content_block_delta"
                message := none
                index := none
                content_block := none
                delta := some { type := some "input_json_delta", text := none, thinking := none, partial_json := some "\x7b\"x\":", stop_reason := none } })
        {} 0 = (none, {})
  ∧ openaiToClaudeResponse
        (some { id := none
                model := none
                choices := some [{
                  delta := some { content := none, reasoning_content := none, reasoning := none, tool_calls := some [{ index := some 0, id := none, fname := none, fargs := some "\x7b\"x\":" }] }
                  finish_reason := none }]
                extend_fields := none
                usage := none })
        { messageStartSent := true } 0 = (none, { messageStartSent := true }) :=
  C9_unopened_tool_delta_is_noop none "\x7b\"x\":" "\x7b\"x\":" {} { messageStartSent := true }
    0 0 0 rfl (by decide) rfl (by decide) rfl

theorem countP_msg_eq_zero_of_block (l : List ClaudeEvent)
    (h : ∀ e ∈ l, isBlockEvent e = true) :
    l.countP isMessageStart = 0 ∧ l.countP isMessageStop = 0 ∧
    l.countP isMessageDelta = 0 := by
  refine ⟨?_, ?_, ?_⟩ <;>
    · rw [List.countP_eq_zero]
      intro e he
      have := h e he
      cases e <;> simp_all [isBlockEvent, isMessageStart, isMessageStop, isMessageDelta]

theorem blockEvents_append {l1 l2 : List ClaudeEvent}
    (h1 : ∀ e ∈ l1, isBlockEvent e = true) (h2 : ∀ e ∈ l2, isBlockEvent e = true) :
    ∀ e ∈ l1 ++ l2, isBlockEvent e = true := by
  intro e he
  rcases List.mem_append.mp he with h | h
  exacts [h1 e h, h2 e h]

theorem blockEvents_nil : ∀ e ∈ ([] : List ClaudeEvent), isBlockEvent e = true := by
  simp

theorem blockEvents_single {e : ClaudeEvent} (h : isBlockEvent e = true) :
    ∀ x ∈ [e], isBlockEvent x = true := by
  intro x hx
  rw [List.mem_singleton.mp hx]
  exact h

theorem stopThinkingBlock_spec (st : OCState) :
    (∀ e ∈ (stopThinkingBlock st).2, isBlockEvent e = true) ∧
    (stopThinkingBlock st).1.messageStartSent = st.messageStartSent := by
  unfold stopThinkingBlock
  split <;> simp [isBlockEvent]

theorem stopTextBlock_spec (st : OCState) :
    (∀ e ∈ (stopTextBlock st).2, isBlockEvent e = true) ∧
    (stopTextBlock st).1.messageStartSent = st.messageStartSent := by
  unfold stopTextBlock
  split <;> simp [isBlockEvent]

theorem ocReasonSection_spec (delta : Option OADelta) (st : OCState) :
    (∀ e ∈ (ocReasonSection delta st).2, isBlockEvent e = true) ∧
    (ocReasonSection delta st).1.messageStartSent = st.messageStartSent := by
  unfold ocReasonSection
  cases firstTruthyS (delta.bind (·.reasoning_content)) (delta.bind (·.reasoning)) with
  | none => simp
  | some rc =>
    rcases hstop : stopTextBlock st with ⟨stA, evA⟩
    have hA := stopTextBlock_spec st
    rw [hstop] at hA
    simp only
    split
    · exact ⟨blockEvents_append (blockEvents_append hA.1 blockEvents_nil)
        (blockEvents_single rfl), hA.2⟩
    · exact ⟨blockEvents_append (blockEvents_append hA.1 (blockEvents_single rfl))
        (blockEvents_single rfl), hA.2⟩

theorem ocContentSection_spec (delta : Option OADelta) (st : OCState) :
    (∀ e ∈ (ocContentSection delta st).2, isBlockEvent e = true) ∧
    (ocContentSection delta st).1.messageStartSent = st.messageStartSent := by
  unfold ocContentSection
  cases truthyS (delta.bind (·.content)) with
  | none => simp
  | some txt =>
    rcases hstop : stopThinkingBlock st with ⟨stA, evA⟩
    have hA := stopThinkingBlock_spec st
    rw [hstop] at hA
    simp only
    split
    · exact ⟨blockEvents_append (blockEvents_append hA.1 blockEvents_nil)
        (blockEvents_single rfl), hA.2⟩
    · exact ⟨blockEvents_append (blockEvents_append hA.1 (blockEvents_single rfl))
        (blockEvents_single rfl), hA.2⟩

theorem oaToolCallStep_spec (st : OCState) (evs : List ClaudeEvent)
    (tc : OAToolCallDelta) :
    ∃ st' extra, oaToolCallStep (st, evs) tc = (st', evs ++ extra) ∧
      (∀ e ∈ extra, isBlockEvent e = true) ∧
      st'.messageStartSent = st.messageStartSent := by
  unfold oaToolCallStep
  cases htid : truthyS tc.id with
  | none =>
    simp only [htid]
    cases hargs : truthyS tc.fargs with
    | none => exact ⟨st, [], by simp, by simp, rfl⟩
    | some args =>
      cases hget : mapGet st.toolCalls (tc.index.getD 0) with
      | none => exact ⟨st, [], by simp [hget], by simp, rfl⟩
      | some info =>
        refine ⟨st, [ClaudeEvent.content_block_delta info.blockIndex (.input_json_delta args)],
          by simp [hget], ?_, rfl⟩
        simp [isBlockEvent]
  | some tid =>
    rcases h1 : stopThinkingBlock st with ⟨stA, evA⟩
    have hA := stopThinkingBlock_spec st
    rw [h1] at hA
    rcases h2 : stopTextBlock stA with ⟨stB, evB⟩
    have hB := stopTextBlock_spec stA
    rw [h2] at hB
    simp only [htid, h1, h2]
    set stC : OCState := { stB with
      nextBlockIndex := stB.nextBlockIndex + 1
      toolCalls := mapSet stB.toolCalls (tc.index.getD 0)
        ⟨tid, tc.fname.getD "", stB.nextBlockIndex⟩ } with hstC
    cases hargs : truthyS tc.fargs with
    | none =>
      refine ⟨stC, evA ++ evB ++
        [ClaudeEvent.content_block_start stB.nextBlockIndex
          (.tool_use tid (stripToolPrefix (tc.fname.getD "")))], by simp, ?_, ?_⟩
      · intro e he
        simp only [List.mem_append, List.mem_singleton] at he
        rcases he with (he | he) | he
        · exact hA.1 e he
        · exact hB.1 e he
        · subst he; rfl
      · exact hB.2.trans hA.2
    | some args =>
      cases hget : mapGet stC.toolCalls (tc.index.getD 0) with
      | none =>
        refine ⟨stC, evA ++ evB ++
          [ClaudeEvent.content_block_start stB.nextBlockIndex
            (.tool_use tid (stripToolPrefix (tc.fname.getD "")))], by simp [hget], ?_, ?_⟩
        · intro e he
          simp only [List.mem_append, List.mem_singleton] at he
          rcases he with (he | he) | he
          · exact hA.1 e he
          · exact hB.1 e he
          · subst he; rfl
        · exact hB.2.trans hA.2
      | some info =>
        refine ⟨stC, evA ++ evB ++
          [ClaudeEvent.content_block_start stB.nextBlockIndex
            (.tool_use tid (stripToolPrefix (tc.fname.getD "")))] ++
          [ClaudeEvent.content_block_delta info.blockIndex (.input_json_delta args)],
          by simp [hget], ?_, ?_⟩
        · intro e he
          simp only [List.mem_append, List.mem_singleton] at he
          rcases he with ((he | he) | he) | he
          · exact hA.1 e he
          · exact hB.1 e he
          · subst he; rfl
          · subst he; rfl
        · exact hB.2.trans hA.2

theorem ocToolFold_spec (tcs : List OAToolCallDelta) (st : OCState)
    (evs : List ClaudeEvent) (h : ∀ e ∈ evs, isBlockEvent e = true) :
    (∀ e ∈ (tcs.foldl oaToolCallStep (st, evs)).2, isBlockEvent e = true) ∧
    (tcs.foldl oaToolCallStep (st, evs)).1.messageStartSent = st.messageStartSent := by
  induction tcs generalizing st evs with
  | nil => exact ⟨h, rfl⟩
  | cons tc rest ih =>
    obtain ⟨st', extra, heq, hextra, hms⟩ := oaToolCallStep_spec st evs tc
    rw [List.foldl_cons, heq]
    have hmem : ∀ e ∈ evs ++ extra, isBlockEvent e = true := by
      intro e he
      rcases List.mem_append.mp he with he | he
      · exact h e he
      · exact hextra e he
    obtain ⟨h1, h2⟩ := ih st' (evs ++ extra) hmem
    exact ⟨h1, h2.trans hms⟩

theorem ocToolSection_spec (delta : Option OADelta) (st : OCState) :
    (∀ e ∈ (ocToolSection delta st).2, isBlockEvent e = true) ∧
    (ocToolSection delta st).1.messageStartSent = st.messageStartSent := by
  unfold ocToolSection
  cases delta.bind (·.tool_calls) with
  | none => simp
  | some tcs => exact ocToolFold_spec tcs st [] (by simp)

theorem ocStartSection_spec (c : OAChunk) (now : Nat) (st : OCState) :
    (ocStartSection c now st).2.countP isMessageStart
        = (if st.messageStartSent then 0 else 1) ∧
    (ocStartSection c now st).2.countP isMessageStop = 0 ∧
    (ocStartSection c now st).2.countP isMessageDelta = 0 ∧
    (ocStartSection c now st).1.messageStartSent = true := by
  unfold ocStartSection
  split <;> simp_all [isMessageStart, isMessageStop, isMessageDelta]

theorem ocFinishSection_spec (choice : OAChoice) (st : OCState) :
    (ocFinishSection choice st).2.countP isMessageStart = 0 ∧
    (ocFinishSection choice st).2.countP isMessageStop
        = (if (truthyS choice.finish_reason).isSome then 1 else 0) ∧
    (ocFinishSection choice st).2.countP isMessageDelta
        = (if (truthyS choice.finish_reason).isSome then 1 else 0) ∧
    (ocFinishSection choice st).1.messageStartSent = st.messageStartSent := by
  unfold ocFinishSection
  cases hfr : truthyS choice.finish_reason with
  | none => simp
  | some fr =>
    rcases h1 : stopThinkingBlock st with ⟨stA, evA⟩
    have hA := stopThinkingBlock_spec st
    rw [h1] at hA
    rcases h2 : stopTextBlock stA with ⟨stB, evB⟩
    have hB := stopTextBlock_spec stA
    rw [h2] at hB
    simp only [h1, h2]
    obtain ⟨ha1, ha2, ha3⟩ := countP_msg_eq_zero_of_block evA hA.1
    obtain ⟨hb1, hb2, hb3⟩ := countP_msg_eq_zero_of_block evB hB.1
    have htools := countP_msg_eq_zero_of_block
      (stB.toolCalls.map (fun p => ClaudeEvent.content_block_stop p.2.blockIndex))
      (by intro e he; rcases List.mem_map.mp he with ⟨p, _, hp⟩; rw [← hp]; rfl)
    refine ⟨?_, ?_, ?_, hB.2.trans hA.2⟩ <;>
      simp [List.countP_append, ha1, ha2, ha3, hb1, hb2, hb3, htools.1, htools.2.1,
        htools.2.2, isMessageStart, isMessageStop, isMessageDelta]

theorem ocProcessChoice_counts (c : OAChunk) (choice : OAChoice) (st : OCState)
    (now : Nat) :
    ((ocProcessChoice c choice st now).1.getD []).countP isMessageStart
        = (if !st.messageStartSent then 1 else 0) ∧
    ((ocProcessChoice c choice st now).1.getD []).countP isMessageStop
        = (if (truthyS choice.finish_reason).isSome then 1 else 0) ∧
    ((ocProcessChoice c choice st now).1.getD []).countP isMessageDelta
        = (if (truthyS choice.finish_reason).isSome then 1 else 0) ∧
    (ocProcessChoice c choice st now).2.messageStartSent = true := by
  unfold ocProcessChoice
  rcases hs1 : ocStartSection c now st with ⟨st1, ev1⟩
  have hS := ocStartSection_spec c now st
  rw [hs1] at hS
  rcases hs2 : ocReasonSection choice.delta st1 with ⟨st2, ev2⟩
  have hR := ocReasonSection_spec choice.delta st1
  rw [hs2] at hR
  rcases hs3 : ocContentSection choice.delta st2 with ⟨st3, ev3⟩
  have hC := ocContentSection_spec choice.delta st2
  rw [hs3] at hC
  rcases hs4 : ocToolSection choice.delta st3 with ⟨st4, ev4⟩
  have hT := ocToolSection_spec choice.delta st3
  rw [hs4] at hT
  rcases hs5 : ocFinishSection choice st4 with ⟨st5, ev5⟩
  have hF := ocFinishSection_spec choice st4
  rw [hs5] at hF
  obtain ⟨hr1, hr2, hr3⟩ := countP_msg_eq_zero_of_block ev2 hR.1
  obtain ⟨hc1, hc2, hc3⟩ := countP_msg_eq_zero_of_block ev3 hC.1
  obtain ⟨ht1, ht2, ht3⟩ := countP_msg_eq_zero_of_block ev4 hT.1
  have hgetD : ∀ l : List ClaudeEvent, (optList l).getD [] = l := by
    intro l; cases l <;> simp [optList]
  simp only [hs1, hs2, hs3, hs4, hs5, hgetD, List.countP_append,
    hS.1, hS.2.1, hS.2.2.1, hr1, hr2, hr3, hc1, hc2, hc3, ht1, ht2, ht3,
    hF.1, hF.2.1, hF.2.2.1]
  refine ⟨?_, ?_, ?_, ?_⟩
  · cases st.messageStartSent <;> simp
  · simp
  · simp
  · rw [hF.2.2.2, hT.2, hC.2, hR.2]
    exact hS.2.2.2

theorem ocCall_counts (c : OAChunk) (st : OCState) (now : Nat) :
    ((openaiToClaudeResponse (some c) st now).1.getD []).countP isMessageStart
        = (if hasChoiceB c && !st.messageStartSent then 1 else 0) ∧
    ((openaiToClaudeResponse (some c) st now).1.getD []).countP isMessageStop
        = (if hasFinishB c then 1 else 0) ∧
    ((openaiToClaudeResponse (some c) st now).1.getD []).countP isMessageDelta
        = (if hasFinishB c then 1 else 0) ∧
    (openaiToClaudeResponse (some c) st now).2.messageStartSent
        = (st.messageStartSent || hasChoiceB c) := by
  cases hc : (c.choices.getD []).head? with
  | none =>
    have hnone : openaiToClaudeResponse (some c) st now = (none, st) := by
      simp only [openaiToClaudeResponse]
      rw [hc]
    rw [hnone]
    simp [hasChoiceB, hasFinishB, hc]
  | some choice =>
    have hsome : openaiToClaudeResponse (some c) st now
        = ocProcessChoice c choice st now := by
      simp only [openaiToClaudeResponse]
      rw [hc]
    have hchoice : hasChoiceB c = true := by simp [hasChoiceB, hc]
    have hfin : hasFinishB c = (truthyS choice.finish_reason).isSome := by
      simp [hasFinishB, hc]
    obtain ⟨p1, p2, p3, p4⟩ := ocProcessChoice_counts c choice st now
    rw [hsome, hchoice, hfin]
    refine ⟨by simpa using p1, p2, p3, by simp [p4]⟩

theorem runOC_counts (cs : List OAChunk) (st : OCState) (now : Nat) :
    (runOCChunks cs st now).1.countP isMessageStart
        = (if st.messageStartSent then 0 else if cs.any hasChoiceB then 1 else 0) ∧
    (runOCChunks cs st now).1.countP isMessageStop = cs.countP hasFinishB ∧
    (runOCChunks cs st now).1.countP isMessageDelta = cs.countP hasFinishB := by
  induction cs generalizing st with
  | nil => simp [runOCChunks]
  | cons c rest ih =>
    obtain ⟨h1, h2, h3, h4⟩ := ocCall_counts c st now
    rcases hcall : openaiToClaudeResponse (some c) st now with ⟨r, st'⟩
    rw [hcall] at h1 h2 h3 h4
    have h1' : (r.getD []).countP isMessageStart
        = (if hasChoiceB c && !st.messageStartSent then 1 else 0) := h1
    have h2' : (r.getD []).countP isMessageStop = (if hasFinishB c then 1 else 0) := h2
    have h3' : (r.getD []).countP isMessageDelta = (if hasFinishB c then 1 else 0) := h3
    have h4' : st'.messageStartSent = (st.messageStartSent || hasChoiceB c) := h4
    obtain ⟨i1, i2, i3⟩ := ih st'
    rcases hrun : runOCChunks rest st' now with ⟨rs, st''⟩
    rw [hrun] at i1 i2 i3
    have i1' : rs.countP isMessageStart
        = (if st'.messageStartSent then 0 else if rest.any hasChoiceB then 1 else 0) := i1
    have i2' : rs.countP isMessageStop = rest.countP hasFinishB := i2
    have i3' : rs.countP isMessageDelta = rest.countP hasFinishB := i3
    simp only [runOCChunks, hcall, hrun, List.countP_append, List.countP_cons,
      List.any_cons]
    refine ⟨?_, ?_, ?_⟩
    · rw [h1', i1', h4']
      generalize st.messageStartSent = a
      rcases Bool.eq_false_or_eq_true (hasChoiceB c) with hb | hb <;>
        rcases Bool.eq_false_or_eq_true (rest.any hasChoiceB) with hd | hd <;>
          cases a <;> simp [hb, hd]
    · rw [h2', i2']
      cases hasFinishB c <;> simp [Nat.add_comm]
    · rw [h3', i3']
      cases hasFinishB c <;> simp [Nat.add_comm]

/-- **C3 counterexample.** Two consecutive bare `finish_reason` chunks from a
fresh state produce *two* terminal pairs (`message_delta` + `message_stop`
twice): the OpenAI→Claude translator has no double-finish guard, refuting the
claim's "at most one terminal pair". -/
theorem C3_counterexample :
    (runOCChunks [bareFinishChunk, bareFinishChunk] freshOCState 0).1 =
      [ClaudeEvent.message_start "msg_0" "unknown",
       ClaudeEvent.message_delta "end_turn", ClaudeEvent.message_stop,
       ClaudeEvent.message_delta "end_turn", ClaudeEvent.message_stop] ∧
    (runOCChunks [bareFinishChunk, bareFinishChunk] freshOCState 0).1.countP
      isMessageStop = 2 := by
  constructor <;> rfl

/-- **C3 (amended).** For any sequence of upstream chunks fed from a fresh
state, the emitted events contain exactly one `message_start` iff some chunk
passes the `choices?.[0]` guard (zero otherwise), and one terminal pair
(`message_delta` carrying a stop_reason followed by `message_stop`) **per**
chunk whose first choice carries a truthy `finish_reason` — the translator
re-emits the terminal pair on every duplicated terminal signal. -/
theorem C3_amended_start_and_finish_counts (cs : List OAChunk) (now : Nat) :
    (runOCChunks cs freshOCState now).1.countP isMessageStart
        = (if cs.any hasChoiceB then 1 else 0) ∧
    (runOCChunks cs freshOCState now).1.countP isMessageStop
        = cs.countP hasFinishB ∧
    (runOCChunks cs freshOCState now).1.countP isMessageDelta
        = cs.countP hasFinishB := by
  have h := runOC_counts cs freshOCState now
  simpa [freshOCState] using h

/-! ### C4: every tool call gets a response after `fixMissingToolResponses` -/

theorem truthyS_eq_some {o : Option String} {s : String}
    (h : truthyS o = some s) : o = some s := by
  cases o with
  | none => simp [truthyS] at h
  | some t =>
    by_cases ht : t = ""
    · simp [truthyS, ht] at h
    · simp only [truthyS, ht, if_neg, if_false] at h
      rw [h]

theorem takeWhile_append_all {α : Type} {p : α → Bool} {xs ys : List α}
    (h : ∀ x ∈ xs, p x = true) :
    (xs ++ ys).takeWhile p = xs ++ ys.takeWhile p := by
  induction xs with
  | nil => simp
  | cons x xs ih =>
    have hx := h x (List.mem_cons_self x xs)
    simp only [List.cons_append, List.takeWhile_cons, hx, if_true]
    rw [ih (fun y hy => h y (List.mem_cons_of_mem x hy))]

theorem not_assistant_of_tool {m : OAMsg} (h : m.role = "tool") :
    isAssistantWithCalls m = false := by
  simp [isAssistantWithCalls, h]

theorem toolCallsAnsweredB_append_nonassistant {xs ys : List OAMsg}
    (h : ∀ x ∈ xs, isAssistantWithCalls x = false) :
    toolCallsAnsweredB (xs ++ ys) = toolCallsAnsweredB ys := by
  induction xs with
  | nil => rfl
  | cons x xs ih =>
    have hx := h x (List.mem_cons_self x xs)
    have ih' := ih (fun y hy => h y (List.mem_cons_of_mem x hy))
    simp [toolCallsAnsweredB, hx, ih']

theorem fixMissing_run_roles {rest : List OAMsg} :
    ∀ x ∈ rest.takeWhile isToolResp, x.role = "tool" := by
  intro x hx
  have hp : isToolResp x = true := List.mem_takeWhile_imp hx
  simp only [isToolResp, Bool.and_eq_true, beq_iff_eq] at hp
  exact hp.1

theorem placeholder_roles {ids : List (Option String)} :
    ∀ x ∈ ids.map mkPlaceholder, x.role = "tool" := by
  intro x hx
  rcases List.mem_map.mp hx with ⟨id, _, hid⟩
  rw [← hid]
  rfl

theorem fixMissing_answered (msgs : List OAMsg) :
    toolCallsAnsweredB (fixMissingToolResponses msgs) = true := by
  induction msgs using fixMissingToolResponses.induct with
  | case1 => simp [fixMissingToolResponses, toolCallsAnsweredB]
  | case2 m rest hassist ihafter =>
    rw [show fixMissingToolResponses (m :: rest)
        = m :: (rest.takeWhile isToolResp
            ++ (missingIdsOf m (rest.takeWhile isToolResp)).map mkPlaceholder
            ++ fixMissingToolResponses (rest.dropWhile isToolResp)) from by
      simp [fixMissingToolResponses, hassist]]
    have hpre : ∀ x ∈ rest.takeWhile isToolResp
        ++ (missingIdsOf m (rest.takeWhile isToolResp)).map mkPlaceholder,
        x.role = "tool" := by
      intro x hx
      rcases List.mem_append.mp hx with h | h
      exacts [fixMissing_run_roles x h, placeholder_roles x h]
    simp only [toolCallsAnsweredB, Bool.and_eq_true]
    constructor
    · rw [if_pos hassist, List.all_eq_true]
      intro tc htc
      rw [takeWhile_append_all (α := OAMsg) (p := fun x : OAMsg => x.role == "tool")
        (fun (x : OAMsg) hx => by simp [hpre x hx])]
      rw [List.any_eq_true]
      by_cases hresp : ∃ s, tc.id = some s ∧
          (((rest.takeWhile isToolResp).filterMap
            (fun t => truthyS t.tool_call_id)).contains s) = true
      · rcases hresp with ⟨s, hid, hcont⟩
        have hmem : s ∈ (rest.takeWhile isToolResp).filterMap
            (fun t => truthyS t.tool_call_id) := (List.elem_iff).mp hcont
        rcases List.mem_filterMap.mp hmem with ⟨t, htmem, htr⟩
        refine ⟨t, List.mem_append.mpr (Or.inl (List.mem_append.mpr (Or.inl htmem))), ?_⟩
        rw [truthyS_eq_some htr, hid]
        simp
      · have hmiss : tc.id ∈ missingIdsOf m (rest.takeWhile isToolResp) := by
          rw [missingIdsOf, List.mem_filter]
          refine ⟨List.mem_map.mpr ⟨tc, htc, rfl⟩, ?_⟩
          cases hid : tc.id with
          | none => rfl
          | some s =>
            simp only [Bool.not_eq_eq_eq_not, Bool.not_true]
            by_contra hc
            rw [Bool.not_eq_false] at hc
            exact hresp ⟨s, hid, hc⟩
        refine ⟨mkPlaceholder tc.id,
          List.mem_append.mpr (Or.inl (List.mem_append.mpr
            (Or.inr (List.mem_map.mpr ⟨tc.id, hmiss, rfl⟩)))), ?_⟩
        simp [mkPlaceholder]
    · rw [toolCallsAnsweredB_append_nonassistant
        (fun x hx => not_assistant_of_tool (hpre x hx))]
      exact ihafter
  | case3 m rest hassist ih =>
    simp only [fixMissingToolResponses, hassist, if_false]
    simp [toolCallsAnsweredB, hassist, ih]

/-- **C4.** After Claude→OpenAI request translation, every assistant message
carrying `tool_calls` has a `role:"tool"` response for each of its call ids in
the run of tool messages immediately following it (unanswered ids receive the
synthesized `"[No response received]"` placeholder at the end of that run), as
shown on a concrete request whose `call_2` is never answered. -/
theorem C4_every_tool_call_answered :
    (∀ body : CReqBody,
      toolCallsAnsweredB (claudeToOpenAIRequestMessages body) = true) ∧
    claudeToOpenAIRequestMessages unansweredToolBody =
      [{ role := "user", content := some (.str "hi"), tool_call_id := none,
         tool_calls := none },
       { role := "assistant", content := none, tool_call_id := none
         tool_calls := some [
           { id := some "call_1", name := "get_weather",
             arguments := "\x7b\"city\":\"Paris\"\x7d" },
           { id := some "call_2", name := "get_time", arguments := "\x7b\x7d" }] },
       { role := "tool", content := some (.str "sunny"),
         tool_call_id := some "call_1", tool_calls := none },
       { role := "tool", content := some (.str "[No response received]"),
         tool_call_id := some "call_2", tool_calls := none }] := by
  constructor
  · intro body
    unfold claudeToOpenAIRequestMessages
    exact fixMissing_answered _
  · simp [claudeToOpenAIRequestMessages, unansweredToolBody, convertClaudeMessage,
      fixMissingToolResponses, isAssistantWithCalls, isToolResp, missingIdsOf,
      mkPlaceholder, truthyS, trContentToString, partsToContent, toolInputOrEmpty,
      jsTruthy, jsonStringify, jsonStringifyKV, jsEscape, jsEscapeChar]
    rfl

/-! ### C8: where tool specifications end up in a Kiro conversation -/

theorem kCleanupHistory_no_tools (model : String) (h : List KMsg) :
    ∀ item ∈ kCleanupHistory model h, kMsgHasTools item = false := by
  intro item hitem
  rcases List.mem_map.mp hitem with ⟨x, _, hx⟩
  rw [← hx]
  cases x with
  | user u =>
    cases hc : u.ctx with
    | none => simp [kMsgHasTools, kStripTools, hc]
    | some c =>
      rcases hr : c.toolResults with _ | trs <;>
        simp [kMsgHasTools, kStripTools, hc, hr, Option.bind]
  | asst a => rfl

/-- **C8 counterexample.** For the conversation `user "a"`, `assistant "b"`,
`user "c"` with one tool, the converted result attaches the tool
specification only to the `currentMessage` (the final user turn) and leaves
the very first user turn of the history without tools — refuting the claim
that tools are attached to the very first user turn and to no other. -/
theorem C8_counterexample :
    convertMessages (fun _ => Json.null) "u" kExMessages kExTools "claude-x" =
      ([KMsg.user { content := "a", modelId := "claude-x", ctx := none },
        KMsg.asst { content := "b", toolUses := none }],
       some { content := "c", modelId := ""
              ctx := some { toolResults := none
                            tools := some [{ name := some "get_weather"
                                             description := "weather lookup"
                                             inputSchema := .obj [("type", .str "object")] }] } }) := by
  decide

/-- **C8 (amended).** In the result of the OpenAI→Kiro message conversion, no
turn of the returned `history` carries tool specifications: tools are
attached to the first user turn while the history is being built, but the
final cleanup copies them onto the `currentMessage` (the trailing user turn,
when distinct) and strips them from every history turn. -/
theorem C8_amended_history_carries_no_tools (jparse : String → Json)
    (uuid : String) (messages : List KInMsg) (tools : List KToolIn)
    (model : String) :
    ∀ item ∈ (convertMessages jparse uuid messages tools model).1,
      kMsgHasTools item = false := by
  intro item hitem
  simp only [convertMessages] at hitem
  exact kCleanupHistory_no_tools model _ item hitem

/-- Witness for the amended C8 theorem at the concrete three-turn
conversation: the first history turn is in the returned history and carries
no tools. -/
theorem C8_amended_witness :
    KMsg.user { content := "a", modelId := "claude-x", ctx := none } ∈
      (convertMessages (fun _ => Json.null) "u" kExMessages kExTools "claude-x").1 ∧
    kMsgHasTools (KMsg.user { content := "a", modelId := "claude-x", ctx := none }) = false :=
  ⟨by decide,
   C8_amended_history_carries_no_tools (fun _ => Json.null) "u" kExMessages kExTools
     "claude-x" _ (by decide)⟩


/-! ### C5 and C6: Antigravity JSON-Schema cleaning -/

theorem jsSet_self {kvs : List (String × Json)} {k : String} {v : Json}
    (h : jsGet kvs k = some v) : jsSet kvs k v = kvs := by
  induction kvs with
  | nil => simp [jsGet] at h
  | cons p rest ih =>
    obtain ⟨k1, v1⟩ := p
    by_cases hk : k1 = k
    · subst hk
      have hv : v1 = v := by simpa [jsGet] using h
      simp [jsSet, hv]
    · simp only [jsGet, if_neg hk] at h
      simp [jsSet, hk, ih h]

theorem jsDelete_absent {kvs : List (String × Json)} {k : String}
    (h : jsGet kvs k = none) : jsDelete kvs k = kvs := by
  induction kvs with
  | nil => rfl
  | cons p rest ih =>
    obtain ⟨k1, v1⟩ := p
    by_cases hk : k1 = k
    · subst hk; simp [jsGet] at h
    · simp only [jsGet, if_neg hk] at h
      have ih' := ih h
      simp only [jsDelete] at ih' ⊢
      simp [List.filter_cons, hk, ih']

theorem foldl_jsDelete_absent {ks : List String} {kvs : List (String × Json)}
    (h : ∀ k ∈ ks, jsGet kvs k = none) : ks.foldl jsDelete kvs = kvs := by
  induction ks with
  | nil => rfl
  | cons k ks ih =>
    rw [List.foldl_cons, jsDelete_absent (h k (by simp))]
    exact ih (fun k' hk' => h k' (by simp [hk']))

theorem allJ_self {p : Json → Bool} {j : Json} (h : allJ p j = true) :
    p j = true := by
  cases j <;> simp only [allJ, Bool.and_eq_true] at h <;>
    first | exact h | exact h.1

theorem map_id_of_mem {α : Type} {f : α → α} :
    ∀ {l : List α}, (∀ x ∈ l, f x = x) → l.map f = l := by
  intro l h
  induction l with
  | nil => rfl
  | cons x xs ih =>
    simp only [List.map_cons, h x (by simp), List.cons.injEq, true_and]
    exact ih (fun y hy => h y (by simp [hy]))

/-- A per-node action that fixes every cleaned node fixes every value all of
whose nodes are cleaned, at any fuel. -/
theorem topDownFuel_id {f : Json → Json} {p : Json → Bool}
    (hf : ∀ y, p y = true → f y = y) :
    ∀ (n : Nat) (y : Json), allJ p y = true → topDownFuel f n y = y := by
  intro n
  induction n with
  | zero => intro y _; rfl
  | succ n ih =>
    have hmap : ∀ l : List Json, allJL p l = true →
        l.map (topDownFuel f n) = l := by
      intro l hl
      induction l with
      | nil => rfl
      | cons x xs ihx =>
        simp only [allJL, Bool.and_eq_true] at hl
        simp [ih x hl.1, ihx hl.2]
    have hmapKV : ∀ kvs : List (String × Json), allJKV p kvs = true →
        kvs.map (fun q => (q.1, topDownFuel f n q.2)) = kvs := by
      intro kvs hk
      induction kvs with
      | nil => rfl
      | cons q rest ihq =>
        obtain ⟨k, v⟩ := q
        simp only [allJKV, Bool.and_eq_true] at hk
        simp [ih v hk.1, ihq hk.2]
    intro y hy
    have hpy := allJ_self hy
    cases y with
    | arr l =>
      have hl : allJL p l = true := by
        simp only [allJ, Bool.and_eq_true] at hy; exact hy.2
      simp only [topDownFuel, hf _ hpy]
      rw [hmap l hl]
    | obj kvs =>
      have hk : allJKV p kvs = true := by
        simp only [allJ, Bool.and_eq_true] at hy; exact hy.2
      simp only [topDownFuel, hf _ hpy]
      rw [hmapKV kvs hk]
    | null => simp only [topDownFuel, hf _ hpy]
    | bool b => simp only [topDownFuel, hf _ hpy]
    | num m => simp only [topDownFuel, hf _ hpy]
    | str s => simp only [topDownFuel, hf _ hpy]

theorem cleaned_get_none {kvs : List (String × Json)}
    (h : UNSUPPORTED_SCHEMA_CONSTRAINTS.all (fun k => (jsGet kvs k).isNone) = true)
    {k : String} (hk : k ∈ UNSUPPORTED_SCHEMA_CONSTRAINTS) :
    jsGet kvs k = none := by
  rw [List.all_eq_true] at h
  simpa using h k hk

theorem convertConstToEnumStep_cleaned {j : Json} (h : cleanedNode j = true) :
    convertConstToEnumStep j = j := by
  cases j with
  | obj kvs =>
    simp only [cleanedNode, Bool.and_eq_true] at h
    have hc : jsGet kvs "const" = none :=
      cleaned_get_none h.1.1.1.1 (by simp [UNSUPPORTED_SCHEMA_CONSTRAINTS])
    simp [convertConstToEnumStep, hc]
  | null => rfl
  | bool b => rfl
  | num n => rfl
  | str s => rfl
  | arr l => rfl

theorem convertEnumValuesToStringsStep_cleaned {j : Json}
    (h : cleanedNode j = true) : convertEnumValuesToStringsStep j = j := by
  cases j with
  | obj kvs =>
    simp only [cleanedNode, Bool.and_eq_true] at h
    have h2 := h.1.1.1.2
    cases he : jsGet kvs "enum" with
    | none => simp [convertEnumValuesToStringsStep, he]
    | some v =>
      cases v with
      | arr l =>
        rw [he] at h2
        simp only [List.all_eq_true] at h2
        have hmapid : l.map (fun v => Json.str (jsToString v)) = l := by
          apply map_id_of_mem
          intro x hx
          have := h2 x hx
          cases x <;> simp_all [jsToString]
        simp [convertEnumValuesToStringsStep, he, hmapid, jsSet_self he]
      | null => simp [convertEnumValuesToStringsStep, he]
      | bool b => simp [convertEnumValuesToStringsStep, he]
      | num n => simp [convertEnumValuesToStringsStep, he]
      | str s => simp [convertEnumValuesToStringsStep, he]
      | obj kvs2 => simp [convertEnumValuesToStringsStep, he]
  | null => rfl
  | bool b => rfl
  | num n => rfl
  | str s => rfl
  | arr l => rfl

theorem mergeAllOfStep_cleaned {j : Json} (h : cleanedNode j = true) :
    mergeAllOfStep j = j := by
  cases j with
  | obj kvs =>
    simp only [cleanedNode, Bool.and_eq_true] at h
    have hc : jsGet kvs "allOf" = none :=
      cleaned_get_none h.1.1.1.1 (by simp [UNSUPPORTED_SCHEMA_CONSTRAINTS])
    simp [mergeAllOfStep, hc]
  | null => rfl
  | bool b => rfl
  | num n => rfl
  | str s => rfl
  | arr l => rfl

theorem flattenOneKey_absent {kvs : List (String × Json)} {key : String}
    (h : jsGet kvs key = none) : flattenOneKey key kvs = kvs := by
  simp [flattenOneKey, h]

theorem flattenAnyOfOneOfStep_cleaned {j : Json} (h : cleanedNode j = true) :
    flattenAnyOfOneOfStep j = j := by
  cases j with
  | obj kvs =>
    simp only [cleanedNode, Bool.and_eq_true] at h
    have ha : jsGet kvs "anyOf" = none :=
      cleaned_get_none h.1.1.1.1 (by simp [UNSUPPORTED_SCHEMA_CONSTRAINTS])
    have ho : jsGet kvs "oneOf" = none :=
      cleaned_get_none h.1.1.1.1 (by simp [UNSUPPORTED_SCHEMA_CONSTRAINTS])
    simp [flattenAnyOfOneOfStep, flattenOneKey_absent ha, flattenOneKey_absent ho]
  | null => rfl
  | bool b => rfl
  | num n => rfl
  | str s => rfl
  | arr l => rfl

theorem flattenTypeArraysStep_cleaned {j : Json} (h : cleanedNode j = true) :
    flattenTypeArraysStep j = j := by
  cases j with
  | obj kvs =>
    simp only [cleanedNode, Bool.and_eq_true] at h
    have h3 := h.1.1.2
    cases ht : jsGet kvs "type" with
    | none => simp [flattenTypeArraysStep, ht]
    | some v =>
      cases v with
      | arr l => rw [ht] at h3; simp at h3
      | null => simp [flattenTypeArraysStep, ht]
      | bool b => simp [flattenTypeArraysStep, ht]
      | num n => simp [flattenTypeArraysStep, ht]
      | str s => simp [flattenTypeArraysStep, ht]
      | obj kvs2 => simp [flattenTypeArraysStep, ht]
  | null => rfl
  | bool b => rfl
  | num n => rfl
  | str s => rfl
  | arr l => rfl

theorem removeUnsupportedKeywordsStep_cleaned {j : Json}
    (h : cleanedNode j = true) : removeUnsupportedKeywordsStep j = j := by
  cases j with
  | obj kvs =>
    simp only [cleanedNode, Bool.and_eq_true] at h
    have habs : ∀ k ∈ UNSUPPORTED_SCHEMA_CONSTRAINTS, jsGet kvs k = none :=
      fun k hk => cleaned_get_none h.1.1.1.1 hk
    simp [removeUnsupportedKeywordsStep, foldl_jsDelete_absent habs]
  | null => rfl
  | bool b => rfl
  | num n => rfl
  | str s => rfl
  | arr l => rfl

theorem cleanupRequiredStep_cleaned {j : Json} (h : cleanedNode j = true) :
    cleanupRequiredStep j = j := by
  cases j with
  | obj kvs =>
    simp only [cleanedNode, Bool.and_eq_true] at h
    have h4 := h.1.2
    cases hr : jsGet kvs "required" with
    | none => simp [cleanupRequiredStep, hr]
    | some v =>
      cases v with
      | arr reqs =>
        cases hp : jsGet kvs "properties" with
        | none => simp [cleanupRequiredStep, hr, hp]
        | some props =>
          rw [hr, hp] at h4
          rcases Bool.eq_false_or_eq_true (jsTruthy props) with htr | htr
          · have hred : (if jsTruthy props = true then
                reqs.length != 0 && reqs.all (fun f => jsHasOwn props (jsToString f))
                else true) = true := h4
            rw [if_pos htr, Bool.and_eq_true] at hred
            have hfil : reqs.filter (fun field => jsHasOwn props (jsToString field)) = reqs := by
              rw [List.filter_eq_self]
              intro a ha
              exact (List.all_eq_true.mp hred.2) a ha
            have hne : ¬ reqs.length = 0 := by
              simpa using hred.1
            simp only [cleanupRequiredStep, hr, hp, htr, eq_self_iff_true, if_true, hfil]
            rw [if_neg hne, jsSet_self hr]
          · simp [cleanupRequiredStep, hr, hp, htr]
      | null => simp [cleanupRequiredStep, hr]
      | bool b => simp [cleanupRequiredStep, hr]
      | num n => simp [cleanupRequiredStep, hr]
      | str s => simp [cleanupRequiredStep, hr]
      | obj kvs2 => simp [cleanupRequiredStep, hr]
  | null => rfl
  | bool b => rfl
  | num n => rfl
  | str s => rfl
  | arr l => rfl

theorem addPlaceholdersStep_cleaned {j : Json} (h : cleanedNode j = true) :
    addPlaceholdersStep j = j := by
  cases j with
  | obj kvs =>
    simp only [cleanedNode, Bool.and_eq_true] at h
    have h5 := h.2
    rcases Bool.eq_false_or_eq_true (jsIsStr (jsGet kvs "type") "object") with hty | hty
    · rw [if_pos hty] at h5
      cases hp : jsGet kvs "properties" with
      | none => rw [hp] at h5; simp at h5
      | some p =>
        rw [hp, Bool.and_eq_true] at h5
        have : (!jsTruthy p || jsKeysLength p == 0) = false := by
          simp only [Bool.or_eq_false_iff, Bool.not_eq_true']
          constructor
          · simp [h5.1]
          · simpa using h5.2
        simp [addPlaceholdersStep, hty, hp, this]
    · simp [addPlaceholdersStep, hty]
  | null => rfl
  | bool b => rfl
  | num n => rfl
  | str s => rfl
  | arr l => rfl

/-- The whole pipeline fixes any value all of whose nodes are cleaned. -/
theorem clean_of_cleaned {s : Json} (h : allJ cleanedNode s = true) :
    cleanJSONSchemaForAntigravity s = s := by
  have h1 : convertConstToEnum s = s :=
    topDownFuel_id (fun y hy => convertConstToEnumStep_cleaned hy) _ _ h
  have h2 : convertEnumValuesToStrings s = s :=
    topDownFuel_id (fun y hy => convertEnumValuesToStringsStep_cleaned hy) _ _ h
  have h3 : mergeAllOf s = s :=
    topDownFuel_id (fun y hy => mergeAllOfStep_cleaned hy) _ _ h
  have h4 : flattenAnyOfOneOf s = s :=
    topDownFuel_id (fun y hy => flattenAnyOfOneOfStep_cleaned hy) _ _ h
  have h5 : flattenTypeArrays s = s :=
    topDownFuel_id (fun y hy => flattenTypeArraysStep_cleaned hy) _ _ h
  have h6 : removeUnsupportedKeywords s = s :=
    topDownFuel_id (fun y hy => removeUnsupportedKeywordsStep_cleaned hy) _ _ h
  have h7 : cleanupRequired s = s :=
    topDownFuel_id (fun y hy => cleanupRequiredStep_cleaned hy) _ _ h
  have h8 : addPlaceholders s = s :=
    topDownFuel_id (fun y hy => addPlaceholdersStep_cleaned hy) _ _ h
  unfold cleanJSONSchemaForAntigravity
  rw [h1, h2, h3, h4, h5, h6, h7, h8]
  simp

/-- C5: cleaning the tool schema
`{"type":"object","properties":{"x":{"const":5}},"anyOf":[{"type":"string"},{"type":"object","properties":{}}]}`
for Antigravity yields an object schema whose only property is the placeholder
string property `reason` (with a description) and whose `required` list is
exactly `["reason"]`: the `anyOf` resolves to the richer object branch, and
that branch, having no properties, receives the placeholder injection. -/
theorem C5_clean_scenario3 :
    cleanJSONSchemaForAntigravity (Json.obj [
      ("type", Json.str "object"),
      ("properties", Json.obj [("x", Json.obj [("const", Json.num 5)])]),
      ("anyOf", Json.arr [
        Json.obj [("type", Json.str "string")],
        Json.obj [("type", Json.str "object"), ("properties", Json.obj [])]])]) =
    Json.obj [
      ("type", Json.str "object"),
      ("properties", Json.obj [("reason", Json.obj [
        ("type", Json.str "string"),
        ("description", Json.str "Brief explanation of why you are calling this tool")])]),
      ("required", Json.arr [Json.str "reason"])] := by
  decide

/-- C6 (counterexample): the schema-cleaning pass is not idempotent. On
`{"type":[[]]}` the first pass keeps the non-`"null"` entry `[]` of the type
array (the comparison `t !== "null"` keeps non-strings) and flattens `type`
to `[]`; the second pass, now seeing an empty `type` array, flattens `type`
to `"string"` — so cleaning twice differs from cleaning once. -/
theorem C6_counterexample :
    cleanJSONSchemaForAntigravity (Json.obj [("type", Json.arr [Json.arr []])]) =
      Json.obj [("type", Json.arr [])] ∧
    cleanJSONSchemaForAntigravity (Json.obj [("type", Json.arr [])]) =
      Json.obj [("type", Json.str "string")] ∧
    cleanJSONSchemaForAntigravity
        (cleanJSONSchemaForAntigravity (Json.obj [("type", Json.arr [Json.arr []])])) ≠
      cleanJSONSchemaForAntigravity (Json.obj [("type", Json.arr [Json.arr []])]) :=
  ⟨by decide, by decide, by decide⟩

/-- C6 (amended): the schema-cleaning pass is idempotent on every schema
whose cleaned form is in cleaned shape — if every node of
`cleanJSONSchemaForAntigravity s` satisfies `cleanedNode`, a second cleaning
pass leaves it unchanged. -/
theorem C6_amended_idempotent_on_cleaned (s : Json)
    (h : allJ cleanedNode (cleanJSONSchemaForAntigravity s) = true) :
    cleanJSONSchemaForAntigravity (cleanJSONSchemaForAntigravity s) =
      cleanJSONSchemaForAntigravity s :=
  clean_of_cleaned h

/-- Witness for the amended C6 theorem at the concrete schema
`{"type":"string"}`, whose cleaned form is in cleaned shape. -/
theorem C6_amended_witness :
    allJ cleanedNode
      (cleanJSONSchemaForAntigravity (Json.obj [("type", Json.str "string")])) = true ∧
    cleanJSONSchemaForAntigravity
        (cleanJSONSchemaForAntigravity (Json.obj [("type", Json.str "string")])) =
      cleanJSONSchemaForAntigravity (Json.obj [("type", Json.str "string")]) :=
  ⟨by decide,
   C6_amended_idempotent_on_cleaned (Json.obj [("type", Json.str "string")]) (by decide)⟩


/-! ### C7 and C2: the SSE stream orchestrator -/

theorem decodeBytes_append (a b : List Nat) : ∀ st : DecState,
    decodeBytes st (a ++ b) =
      ((decodeBytes (decodeBytes st a).1 b).1,
       (decodeBytes st a).2 ++ (decodeBytes (decodeBytes st a).1 b).2) := by
  induction a with
  | nil => intro st; simp [decodeBytes]
  | cons x xs ih => intro st; simp [decodeBytes, ih, List.append_assoc]

theorem feedUnits_append (a b : List Nat) : ∀ buf : List Nat,
    feedUnits buf (a ++ b) =
      ((feedUnits buf a).1 ++ (feedUnits (feedUnits buf a).2 b).1,
       (feedUnits (feedUnits buf a).2 b).2) := by
  induction a with
  | nil => intro buf; simp [feedUnits]
  | cons u us ih =>
    intro buf
    by_cases hu : u = 10 <;> simp [feedUnits, hu, ih]

theorem pipeTransform_append (st : SSEPipe) (a b : List Nat) :
    pipeTransform st (a ++ b) =
      ((pipeTransform (pipeTransform st a).1 b).1,
       (pipeTransform st a).2 ++ (pipeTransform (pipeTransform st a).1 b).2) := by
  simp [pipeTransform, decodeBytes_append, feedUnits_append]

theorem runParse_merge (p : List Nat → Option Json) (st : SSEPipe)
    (a b : List Nat) (cs : List (List Nat)) :
    runParse p st ((a ++ b) :: cs) = runParse p st (a :: b :: cs) := by
  simp [runParse, pipeTransform_append, List.filterMap_append]

theorem runParse_nil_frag (p : List Nat → Option Json) (st : SSEPipe) :
    runParse p st [[]] = runParse p st [] := by
  simp [runParse, pipeTransform, decodeBytes, feedUnits]

/-- C7: SSE parsing is insensitive to chunk boundaries — for every
`JSON.parse` behaviour `p` and every partition of an upstream byte sequence
into fragments (splits may fall mid multi-byte character, mid-line, or
mid-JSON-token), feeding the fragments one at a time to the transform of the
orchestrator followed by its flush yields the same sequence of `parseSSELine`
results as feeding the whole sequence as a single chunk. -/
theorem C7_chunk_boundary_insensitivity (p : List Nat → Option Json)
    (frags : List (List Nat)) :
    runParse p initPipe frags = runParse p initPipe [frags.flatten] := by
  suffices h : ∀ st : SSEPipe, ∀ fr : List (List Nat),
      runParse p st fr = runParse p st [fr.flatten] from h initPipe frags
  intro st fr
  induction fr generalizing st with
  | nil => rw [List.flatten_nil, runParse_nil_frag]
  | cons f fs ih =>
    rw [List.flatten_cons, runParse_merge]
    show runParse p st (f :: fs) = _
    simp only [runParse]
    rw [ih]
    simp only [runParse, List.append_assoc]

theorem countDone_append {ε : Type} (a b : List (OutRecord ε)) :
    countDone (a ++ b) = countDone a + countDone b := by
  simp [countDone, List.countP_append]

theorem countDone_map_eventRec {ε : Type} (l : List ε) :
    countDone (l.map OutRecord.eventRec) = 0 := by
  induction l with
  | nil => rfl
  | cons x xs ih => simp [countDone, List.countP_cons, ih]

theorem lineRecords_countDone {σ ε : Type} (p : List Nat → Option Json)
    (translate : Json → σ → σ × List ε) (st : σ) (line : List Nat) :
    countDone (lineRecords p translate st line).2 =
      if isDoneLine p line then 1 else 0 := by
  unfold lineRecords isDoneLine
  cases hp : parseSSELine p (jsTrimU line) with
  | none => simp [countDone]
  | some v =>
    cases v with
    | done => simp [countDone, List.countP_cons]
    | json j =>
      by_cases ht : jsTruthy j = true
      · by_cases hd : jsTruthyOpt (jsGetF j "done") = true
        · simp [ht, hd, countDone, List.countP_cons]
        · simp [ht, hd, countDone_map_eventRec]
      · simp [Bool.not_eq_true] at ht
        simp [ht, countDone]

theorem foldLines_countDone {σ ε : Type} (p : List Nat → Option Json)
    (translate : Json → σ → σ × List ε) :
    ∀ (lines : List (List Nat)) (st : σ) (acc : List (OutRecord ε)),
      countDone ((lines.foldl
          (fun acc line =>
            let r := lineRecords p translate acc.1 line
            (r.1, acc.2 ++ r.2)) (st, acc)).2) =
        countDone acc + lines.countP (isDoneLine p) := by
  intro lines
  induction lines with
  | nil => intro st acc; simp
  | cons l ls ih =>
    intro st acc
    simp only [List.foldl_cons, List.countP_cons]
    rw [ih, countDone_append, lineRecords_countDone]
    by_cases h : isDoneLine p l = true
    · simp [h]; omega
    · simp [Bool.not_eq_true] at h; simp [h]

theorem countDone_flush_shape {ε : Type} (z2 : List (OutRecord ε)) (evs : List ε)
    (h : countDone z2 = 0) :
    countDone (z2 ++ evs.map OutRecord.eventRec ++ [OutRecord.doneRec]) = 1 := by
  rw [countDone_append, countDone_append, countDone_map_eventRec, h]
  rfl

theorem tpipeFlush_countDone {σ ε : Type} (p : List Nat → Option Json)
    (translate : Json → σ → σ × List ε) (flushT : σ → List ε) (st : TPipe σ) :
    countDone (tpipeFlush p translate flushT st) = 1 := by
  unfold tpipeFlush
  apply countDone_flush_shape
  cases hp : parseSSELine p (jsTrimU (st.buffer ++ decFlushUnits st.dec)) with
  | none => simp [hp, countDone]
  | some v =>
    cases v with
    | done => simp [hp, countDone]
    | json j =>
      by_cases hc : jsTruthy j = true ∧ jsTruthyOpt (jsGetF j "done") = false
      · simp [hp, hc, countDone_map_eventRec]
      · simp [hp, hc, countDone]

theorem runTPipe_countDone {σ ε : Type} (p : List Nat → Option Json)
    (translate : Json → σ → σ × List ε) (flushT : σ → List ε) :
    ∀ (frags : List (List Nat)) (st : TPipe σ),
      countDone (runTPipe p translate flushT st frags) =
        doneLinesIn p st.dec st.buffer frags + 1 := by
  intro frags
  induction frags with
  | nil => intro st; simp [runTPipe, doneLinesIn, tpipeFlush_countDone]
  | cons c cs ih =>
    intro st
    simp only [runTPipe, doneLinesIn, tpipeTransform]
    rw [countDone_append, ih]
    rw [foldLines_countDone]
    simp [countDone]
    omega

theorem getLast_two_appends {ε : Type} (l1 l2 : List (OutRecord ε)) (a : OutRecord ε) :
    (l1 ++ l2 ++ [a]).getLast? = some a := by
  simp [List.getLast?_concat, List.append_assoc]

theorem tpipeFlush_ends_done {σ ε : Type} (p : List Nat → Option Json)
    (translate : Json → σ → σ × List ε) (flushT : σ → List ε) (st : TPipe σ) :
    (tpipeFlush p translate flushT st).getLast? = some OutRecord.doneRec := by
  unfold tpipeFlush
  exact getLast_two_appends _ _ _

theorem runTPipe_ends_done {σ ε : Type} (p : List Nat → Option Json)
    (translate : Json → σ → σ × List ε) (flushT : σ → List ε) :
    ∀ (frags : List (List Nat)) (st : TPipe σ),
      (runTPipe p translate flushT st frags).getLast? = some OutRecord.doneRec := by
  intro frags
  induction frags with
  | nil => intro st; simp [runTPipe, tpipeFlush_ends_done]
  | cons c cs ih =>
    intro st
    simp only [runTPipe]
    have hne : runTPipe p translate flushT (tpipeTransform p translate st c).1 cs ≠ [] := by
      intro hnil
      have := ih (tpipeTransform p translate st c).1
      rw [hnil] at this
      simp at this
    rw [List.getLast?_append_of_ne_nil _ hne]
    exact ih _

/-- C2 (counterexample): on the upstream byte stream `data: [DONE]\n\n`
the translate-mode orchestrator emits two `data: [DONE]\n\n` records — the
upstream terminal line is forwarded immediately and the flush always appends
its own — so the output does not contain exactly one such record. (Stated
with the translator abstracted to one that emits no events; the amended
theorem shows the done-record count is the same for every translator.) -/
theorem C2_counterexample :
    runTPipe (fun _ => none) (fun _ (u : Unit) => (u, ([] : List Unit)))
        (fun _ => []) { dec := initialDec, buffer := [], trState := () } [doneLineBytes] =
      [OutRecord.doneRec, OutRecord.doneRec] ∧
    countDone (runTPipe (fun _ => none) (fun _ (u : Unit) => (u, ([] : List Unit)))
        (fun _ => []) { dec := initialDec, buffer := [], trState := () } [doneLineBytes]) = 2 :=
  ⟨by decide, by decide⟩

/-- C2 (amended): in translate mode, for every parser, translator, flush
translator, initial translator state and fragment list, the output ends with
a `data: [DONE]\n\n` record, and the number of such records is one more
than the number of completed upstream terminal lines (a `[DONE]` sentinel or
a truthy parsed value with a truthy `done` field): it is exactly one
precisely when the upstream sends no terminal line of its own. -/
theorem C2_amended_done_count {σ ε : Type} (p : List Nat → Option Json)
    (translate : Json → σ → σ × List ε) (flushT : σ → List ε) (s0 : σ)
    (frags : List (List Nat)) :
    countDone (runTPipe p translate flushT
        { dec := initialDec, buffer := [], trState := s0 } frags) =
      1 + doneLinesIn p initialDec [] frags ∧
    (runTPipe p translate flushT
        { dec := initialDec, buffer := [], trState := s0 } frags).getLast? =
      some OutRecord.doneRec := by
  constructor
  · rw [runTPipe_countDone]
    exact Nat.add_comm (doneLinesIn p initialDec [] frags) 1
  · exact runTPipe_ends_done p translate flushT frags _

end NineRouter
